import Mathlib

/-!
Verification of the OpenAPI static analyzer of pixie-cli.

This file gives a shallow embedding, in Lean 4, of the endpoint-extraction,
security-derivation, schema-resolution and document-assembly code of the
repository (files `internal/cli/pixie/generate_cmd/openapi/extract_endpoints.go`,
`generator.go`, `schema.go`, `business_layer.go` and the analyzer file defining
`analyzerContext`), together with theorems settling the frozen claims about
that code.

Modelling conventions:
* Go strings are Lean `String`s; the Go standard-library string functions used
  by the code (`strings.Contains`, `strings.Split`, `strings.TrimPrefix`, ...)
  are re-implemented below over `List Char` by structural recursion so that
  every definition evaluates inside the kernel.  They agree with Go on the
  ASCII inputs the analyzer works with.
* Go maps are association lists; `mapInsert` mirrors Go's `m[k] = v`
  (replace-or-append) and `lookupStr` mirrors map access.
* The Go AST node kinds the code dispatches on are a closed inductive
  `GoExpr` / `GoStmt`; `ast.Inspect` is modelled by pre-order collectors.
* The filesystem search of `TypeResolver.findAndParseType` (directory mapping
  plus file scanning) is modelled by a finite environment `List GoTypeEntry`
  of the type declarations reachable under the models root, scanned in order.
* `TypeResolver.ResolveType` is recursive through struct fields; the embedding
  adds an explicit fuel parameter (`Nat`), decremented once per nested
  `ResolveType` entry, and `none` means the fuel ran out.  The theorem for the
  termination claim shows a fuel computable from the environment always
  suffices, which is the shallow-embedding form of "the Go recursion
  terminates".
-/

/-! ## Go string primitives, re-implemented structurally -/

/-- Whether `p` is a prefix of `s` (char lists). -/
def isPrefixL : List Char → List Char → Bool
  | [], _ => true
  | _ :: _, [] => false
  | a :: as, b :: bs => a = b && isPrefixL as bs

/-- Go `strings.Contains s pat` (substring containment). -/
def containsL (pat : List Char) : List Char → Bool
  | [] => decide (pat = [])
  | c :: rest => isPrefixL pat (c :: rest) || containsL pat rest

/-- Go `strings.Contains`. -/
def strContains (s pat : String) : Bool := containsL pat.data s.data

/-- Go `strings.HasPrefix`. -/
def hasPrefixStr (s p : String) : Bool := isPrefixL p.data s.data

/-- Go `strings.HasSuffix`. -/
def hasSuffixStr (s p : String) : Bool := isPrefixL p.data.reverse s.data.reverse

/-- Go `strings.TrimPrefix`. -/
def trimPrefixStr (s p : String) : String :=
  if hasPrefixStr s p then String.mk (s.data.drop p.data.length) else s

/-- Go `strings.TrimSuffix`. -/
def trimSuffixStr (s p : String) : String :=
  if hasSuffixStr s p then String.mk (s.data.take (s.data.length - p.data.length)) else s

/-- Helper for `goSplit`: split `s` at each leftmost occurrence of the
(nonempty) separator; `fuel` bounds the recursion and is instantiated with
`s.length + 1`, which always suffices. -/
def splitAux (sep : List Char) : Nat → List Char → List Char → List (List Char)
  | 0, _, acc => [acc.reverse]
  | _ + 1, [], acc => [acc.reverse]
  | fuel + 1, c :: rest, acc =>
    if sep ≠ [] && isPrefixL sep (c :: rest) then
      acc.reverse :: splitAux sep fuel (List.drop sep.length (c :: rest)) []
    else
      splitAux sep fuel rest (c :: acc)

/-- Go `strings.Split` (the code only ever splits on nonempty separators). -/
def goSplit (s sep : String) : List String :=
  (splitAux sep.data (s.data.length + 1) s.data []).map (fun l => String.mk l)

/-- Go `strings.Join`. -/
def goJoin (parts : List String) (sep : String) : String :=
  match parts with
  | [] => ""
  | p :: rest => rest.foldl (fun acc q => acc ++ sep ++ q) p

/-- Go `strings.ToUpper`, ASCII case as used on HTTP method names. -/
def toUpperStr (s : String) : String := String.mk (s.data.map Char.toUpper)

/-- Go `strings.ToLower`, ASCII case. -/
def toLowerStr (s : String) : String := String.mk (s.data.map Char.toLower)

/-- Go `strings.TrimSpace`. -/
def trimSpaceStr (s : String) : String :=
  String.mk (((s.data.dropWhile Char.isWhitespace).reverse.dropWhile Char.isWhitespace).reverse)

/-- Index of the first occurrence of substring `pat` in `s`, as Go
`strings.Index` (char positions; the analyzer's inputs are ASCII). -/
def indexOfSub (s pat : String) : Option Nat :=
  go s.data 0
where
  go : List Char → Nat → Option Nat
    | [], i => if pat.data = [] then some i else none
    | c :: rest, i => if isPrefixL pat.data (c :: rest) then some i else go rest (i + 1)

/-- Go `strconv.Unquote` restricted to plain double-quoted literals without
escape sequences, the only string-literal shape the modelled sources contain;
other inputs are treated as the error case. -/
def goUnquote (v : String) : Option String :=
  match v.data with
  | '"' :: rest =>
    let inner := rest.take (rest.length - 1)
    if rest.reverse.take 1 = ['"'] ∧ rest.length ≥ 1 ∧
        inner.all (fun c => c ≠ '"' ∧ c ≠ '\\') then
      some (String.mk inner)
    else none
  | _ => none

/-- Go `strconv.Atoi` (optional sign followed by decimal digits). -/
def goAtoi (s : String) : Option Int :=
  match s.data with
  | [] => none
  | '-' :: ds => (digits ds).map (fun n => -(n : Int))
  | '+' :: ds => (digits ds).map (fun n => (n : Int))
  | ds => (digits ds).map (fun n => (n : Int))
where
  digits : List Char → Option Nat
    | [] => none
    | ds => if ds.all Char.isDigit then some (ds.foldl (fun acc c => acc * 10 + (c.toNat - 48)) 0) else none

/-! ## Association lists standing for Go maps -/

/-- Membership test for a Go `map[string]bool` / set of strings. -/
def memStr (k : String) : List String → Bool
  | [] => false
  | x :: rest => x = k || memStr k rest

/-- Go map read `m[k]`. -/
def lookupStr {α : Type} (k : String) : List (String × α) → Option α
  | [] => none
  | (k', v) :: rest => if k' = k then some v else lookupStr k rest

/-- Go map write `m[k] = v`: replace the existing binding or append. -/
def mapInsert {α : Type} (m : List (String × α)) (k : String) (v : α) : List (String × α) :=
  match m with
  | [] => [(k, v)]
  | (k', v') :: rest => if k' = k then (k, v) :: rest else (k', v') :: mapInsert rest k v

/-- Keys of an association list. -/
def mapKeys {α : Type} (m : List (String × α)) : List String := m.map Prod.fst

/-- Insert into a string set (Go `m[k] = struct{}{}`), keeping one copy. -/
def setInsert (s : List String) (k : String) : List String :=
  if memStr k s then s else s ++ [k]

/-! ## Go AST fragment

The closed set of `go/ast` node kinds that `extract_endpoints.go` and the
analyzer dispatch on.  `basicLit` carries the raw literal text (including the
quotes of string literals, as `ast.BasicLit.Value` does).  Function-literal
bodies are not carried: the modelled controller files register handlers by
name, and the code only ever pattern-matches a `FuncLit` head. -/

inductive GoLitKind where
  | stringL
  | intL
  | otherL
deriving DecidableEq

inductive GoExpr where
  /-- `*ast.Ident` -/
  | ident (name : String)
  /-- `*ast.BasicLit` with its raw source text -/
  | basicLit (kind : GoLitKind) (value : String)
  /-- `*ast.CallExpr` -/
  | callE (fn : GoExpr) (args : List GoExpr)
  /-- `*ast.SelectorExpr` -/
  | selectorE (x : GoExpr) (sel : String)
  /-- `*ast.FuncLit` -/
  | funcLit
  /-- `*ast.UnaryExpr` with operator `&`; other unary operators are `otherE` -/
  | addrOf (x : GoExpr)
  /-- `*ast.CompositeLit` (only its type is inspected) -/
  | compositeLit (typeE : Option GoExpr)
  /-- `*ast.StarExpr` -/
  | starE (x : GoExpr)
  /-- `*ast.ArrayType` (a slice type expression) -/
  | arrayTypeE (elt : GoExpr)
  /-- `*ast.MapType` -/
  | mapTypeE (key value : GoExpr)
  /-- any other expression kind: falls through every type switch -/
  | otherE

/-- A `var` declaration spec (`*ast.ValueSpec`). -/
structure GoValueSpec where
  names : List String
  typeE : Option GoExpr
  values : List GoExpr

/-- The statement kinds the analyzer's `ast.Inspect` walks distinguish. -/
inductive GoStmt where
  /-- `*ast.AssignStmt`; `define` is whether the token is `:=` -/
  | assignS (define : Bool) (lhs rhs : List GoExpr)
  /-- `*ast.ExprStmt` -/
  | exprS (e : GoExpr)
  /-- `*ast.DeclStmt` holding a `GenDecl` with token `var` -/
  | varDeclS (specs : List GoValueSpec)
  /-- `*ast.IfStmt` -/
  | ifS (cond : GoExpr) (thenB elseB : List GoStmt)
  /-- `*ast.ReturnStmt` -/
  | returnS (results : List GoExpr)
  /-- any other statement kind -/
  | otherS

mutual
/-- All `*ast.CallExpr` nodes inside an expression, in `ast.Inspect`
pre-order. -/
def exprCallsPre : GoExpr → List GoExpr
  | .callE fn args => .callE fn args :: (exprCallsPre fn ++ exprListCallsPre args)
  | .selectorE x _ => exprCallsPre x
  | .addrOf x => exprCallsPre x
  | .compositeLit t =>
    match t with
    | some te => exprCallsPre te
    | none => []
  | .starE x => exprCallsPre x
  | .arrayTypeE elt => exprCallsPre elt
  | .mapTypeE k v => exprCallsPre k ++ exprCallsPre v
  | .ident _ => []
  | .basicLit _ _ => []
  | .funcLit => []
  | .otherE => []

def exprListCallsPre : List GoExpr → List GoExpr
  | [] => []
  | e :: rest => exprCallsPre e ++ exprListCallsPre rest
end

mutual
/-- All statements of a statement tree in `ast.Inspect` pre-order
(a statement followed by the statements nested inside it). -/
def stmtSubstmts : GoStmt → List GoStmt
  | .ifS cond tb eb => .ifS cond tb eb :: (stmtListSubstmts tb ++ stmtListSubstmts eb)
  | s => [s]

def stmtListSubstmts : List GoStmt → List GoStmt
  | [] => []
  | s :: rest => stmtSubstmts s ++ stmtListSubstmts rest
end

mutual
/-- All `*ast.CallExpr` nodes reachable from a statement, in `ast.Inspect`
pre-order. -/
def stmtCallsPre : GoStmt → List GoExpr
  | .assignS _ lhs rhs => exprListCallsPre lhs ++ exprListCallsPre rhs
  | .exprS e => exprCallsPre e
  | .varDeclS specs => specCallsPre specs
  | .ifS cond tb eb => exprCallsPre cond ++ stmtListCallsPre tb ++ stmtListCallsPre eb
  | .returnS results => exprListCallsPre results
  | .otherS => []

def specCallsPre : List GoValueSpec → List GoExpr
  | [] => []
  | sp :: rest =>
    (match sp.typeE with
     | some te => exprCallsPre te
     | none => []) ++ exprListCallsPre sp.values ++ specCallsPre rest

def stmtListCallsPre : List GoStmt → List GoExpr
  | [] => []
  | s :: rest => stmtCallsPre s ++ stmtListCallsPre rest
end

/-! ## extract_endpoints.go: the Route Graph Builder -/

/-- `EndpointInfo` of `extract_endpoints.go`. -/
structure EndpointInfo where
  path : String
  method : String
  handler : String
  msName : String
  middleware : List String
deriving DecidableEq, Repr

/-- `parseContext` of `extract_endpoints.go` (the `fset`/`verbose` fields are
I/O bookkeeping and are not modelled). -/
structure ParseContext where
  groupPaths : List (String × String)
  groupMiddleware : List (String × List String)
  -- the Go field is named `variables`; that word is reserved in Lean
  varBindings : List (String × String)
  msName : String
deriving Repr

/-- `isHTTPMethod`. -/
def isHTTPMethod (method : String) : Bool :=
  ["Get", "Post", "Put", "Delete", "Patch", "Head", "Options"].contains method

/-- `extractStringLiteral`. -/
def extractStringLiteral : GoExpr → String
  | .basicLit .stringL v => (goUnquote v).getD ""
  | _ => ""

/-- `extractHandlerName`. -/
def extractHandlerName : GoExpr → String
  | .ident n => n
  | .callE (.ident n) _ => n
  | .callE (.selectorE _ s) _ => s
  | .callE _ _ => ""
  | .selectorE _ s => s
  | .funcLit => "<inline>"
  | _ => ""

/-- `extractExpressionAsString`. -/
def extractExpressionAsString : GoExpr → String
  | .ident n => n
  | .selectorE x s => extractExpressionAsString x ++ "." ++ s
  | .callE (.selectorE x s) _ => (extractExpressionAsString x ++ "." ++ s) ++ "()"
  | .callE (.ident n) _ => n ++ "()"
  | .callE _ _ => "?"
  | _ => "?"

/-- `parseContext.extractArgument`. -/
def extractArgument : GoExpr → String
  | .basicLit _ v => v
  | .ident n => n
  | .selectorE x s => extractExpressionAsString (.selectorE x s)
  | _ => "?"

/-- `parseContext.extractEnhancedMiddlewareName`. -/
def extractEnhancedMiddlewareName (ctx : ParseContext) : GoExpr → String
  | .ident n => (lookupStr n ctx.varBindings).getD n
  | .callE (.ident n) args =>
    if !args.isEmpty then
      n ++ "(" ++ goJoin (args.map extractArgument) ", " ++ ")"
    else n ++ "()"
  | .callE (.selectorE x s) args =>
    if !args.isEmpty then
      extractExpressionAsString (.selectorE x s) ++ "(" ++ goJoin (args.map extractArgument) ", " ++ ")"
    else extractExpressionAsString (.selectorE x s) ++ "()"
  | .callE _ _ => ""
  | .selectorE x s => extractExpressionAsString (.selectorE x s)
  | _ => ""

/-- The middleware-collection loops of `handleAssignment` and
`parseHTTPMethodCall`: keep each extracted name that is nonempty. -/
def collectMiddleware (ctx : ParseContext) (args : List GoExpr) : List String :=
  args.filterMap (fun a =>
    let mw := extractEnhancedMiddlewareName ctx a
    if mw ≠ "" then some mw else none)

/-- `parseContext.handleAssignment`. -/
def handleAssignment (ctx : ParseContext) (lhs rhs : List GoExpr) : ParseContext :=
  match lhs, rhs with
  | [.ident varName], [.callE (.selectorE selX selName) args] =>
    let ctx1 :=
      if selName = "Group" then
        match args with
        | pathArg :: mwArgs =>
          let groupPath := extractStringLiteral pathArg
          if groupPath ≠ "" then
            let parent : String × List String :=
              match selX with
              | .ident parentName =>
                match lookupStr parentName ctx.groupPaths with
                | some parentPath =>
                  (parentPath ++ groupPath, (lookupStr parentName ctx.groupMiddleware).getD [])
                | none => (groupPath, [])
              | _ => (groupPath, [])
            let groupMW := parent.2 ++ collectMiddleware ctx mwArgs
            { ctx with
              groupPaths := mapInsert ctx.groupPaths varName parent.1,
              groupMiddleware := mapInsert ctx.groupMiddleware varName groupMW }
          else ctx
        | [] => ctx
      else ctx
    { ctx1 with
      varBindings := mapInsert ctx1.varBindings varName
        (extractExpressionAsString selX ++ "." ++ selName) }
  | [.ident _], [.callE _ _] => ctx
  | [.ident varName], [.selectorE x s] =>
    { ctx with varBindings := mapInsert ctx.varBindings varName (extractExpressionAsString (.selectorE x s)) }
  | _, _ => ctx

/-- The right-to-left handler scan of `parseHTTPMethodCall`, applied to the
arguments after the path: returns the arguments strictly before the handler
and the handler's name, or `none` when no argument looks like a handler. -/
def splitHandler : List GoExpr → Option (List GoExpr × String)
  | [] => none
  | a :: rest =>
    match splitHandler rest with
    | some (mws, h) => some (a :: mws, h)
    | none =>
      let n := extractHandlerName a
      if n ≠ "" then some ([], n) else none

/-- `normalizePath` of `extract_endpoints.go`. -/
def normalizePath (groupPath endpointPath : String) : String :=
  if groupPath = "" ∧ endpointPath = "" then "/"
  else if groupPath = "" then endpointPath
  else if endpointPath = "" then groupPath
  else
    let groupPath' := trimSuffixStr groupPath "/"
    let endpointPath' := if hasPrefixStr endpointPath "/" then endpointPath else "/" ++ endpointPath
    if groupPath' = "" ∨ groupPath' = "/" then endpointPath'
    else groupPath' ++ endpointPath'

/-- `parseContext.parseHTTPMethodCall`. -/
def parseHTTPMethodCall (ctx : ParseContext) : GoExpr → Option EndpointInfo
  | .callE (.selectorE selX method) args =>
    if isHTTPMethod method then
      if args.length < 2 then none
      else
        let path0 := extractStringLiteral (args.headD .otherE)
        let path := if path0 = "" then "/" else path0
        let groupData : String × List String :=
          match selX with
          | .ident recvName =>
            ((lookupStr recvName ctx.groupPaths).getD "",
             (lookupStr recvName ctx.groupMiddleware).getD [])
          | _ => ("", [])
        let fullPath := normalizePath groupData.1 path
        match splitHandler (args.drop 1) with
        | none => none
        | some (mwArgs, handler) =>
          some { path := fullPath, method := method, handler := handler,
                 msName := ctx.msName,
                 middleware := groupData.2 ++ collectMiddleware ctx mwArgs }
    else none
  | _ => none

mutual
/-- One step of the `ast.Inspect` walk of `parseControllerFile`: an
`AssignStmt` updates the context through `handleAssignment` and then its
nested call expressions are offered to `parseHTTPMethodCall`; an `IfStmt`
recurses into its branches; other statements only contribute their nested
calls. -/
def walkStmt (ctx : ParseContext) : GoStmt → ParseContext × List EndpointInfo
  | .assignS d lhs rhs =>
    let ctx' := handleAssignment ctx lhs rhs
    (ctx', (stmtCallsPre (.assignS d lhs rhs)).filterMap (parseHTTPMethodCall ctx'))
  | .ifS cond tb eb =>
    let epsCond := (exprCallsPre cond).filterMap (parseHTTPMethodCall ctx)
    let stepT := walkStmts ctx tb
    let stepE := walkStmts stepT.1 eb
    (stepE.1, epsCond ++ stepT.2 ++ stepE.2)
  | s => (ctx, (stmtCallsPre s).filterMap (parseHTTPMethodCall ctx))

/-- Walk a statement list in order, threading the context. -/
def walkStmts (ctx : ParseContext) : List GoStmt → ParseContext × List EndpointInfo
  | [] => (ctx, [])
  | s :: rest =>
    let step := walkStmt ctx s
    let stepRest := walkStmts step.1 rest
    (stepRest.1, step.2 ++ stepRest.2)
end

/-- The full walk of `parseControllerFile` over the statements of a
controller file, returning the final context and the endpoints in
discovery order. -/
def walkFileCtx (msName : String) (stmts : List GoStmt) : ParseContext × List EndpointInfo :=
  walkStmts { groupPaths := [], groupMiddleware := [], varBindings := [], msName := msName } stmts

/-- `parseControllerFile`, observing only the extracted endpoints. -/
def walkFile (msName : String) (stmts : List GoStmt) : List EndpointInfo :=
  (walkFileCtx msName stmts).2

/-! ## analyzer: security derivation from middleware names -/

/-- `SecurityRequirement` of the analyzer file. -/
structure SecurityRequirement where
  name : String
  scopes : List String
deriving DecidableEq, Repr

/-- `knownPermissionConstants` of the analyzer file. -/
def knownPermissionConstants : List (String × String) :=
  [("session_manager_models.SuperadminRoleFeature", "superadmin")]

/-- `analyzerContext.cleanPermissionArg`. -/
def cleanPermissionArg (arg : String) : String :=
  let arg := trimSpaceStr arg
  let arg :=
    if arg.data.length ≥ 2 ∧
        ((arg.data.take 1 = ['"'] ∧ arg.data.reverse.take 1 = ['"']) ∨
         (arg.data.take 1 = [Char.ofNat 39] ∧ arg.data.reverse.take 1 = [Char.ofNat 39])) then
      String.mk ((arg.data.drop 1).take (arg.data.length - 2))
    else arg
  match lookupStr arg knownPermissionConstants with
  | some resolved => resolved
  | none => arg

/-- The permission-call patterns of `extractPermissionsFromMiddleware`,
with their multi-value flag. -/
def permissionPatterns : List (String × Bool) :=
  [("hasPermission(", false),
   ("AllFeaturesOf(", true),
   ("AnyFeaturesOf(", true),
   ("RequirePermissions(", true),
   ("RequireAnyPermission(", true)]

/-- The closing-parenthesis scan of `extractPermissionsFromMiddleware`:
starting just after the pattern's `(` with depth 1, return the index
(relative to the scan start) of the parenthesis that balances it. -/
def scanCloseParen : List Char → Nat → Nat → Option Nat
  | [], _, _ => none
  | c :: rest, i, depth =>
    if c = ')' then
      if depth = 1 then some i else scanCloseParen rest (i + 1) (depth - 1)
    else if c = '(' then scanCloseParen rest (i + 1) (depth + 1)
    else scanCloseParen rest (i + 1) depth

/-- `analyzerContext.extractPermissionsFromMiddleware`. -/
def extractPermissionsFromMiddleware (mw : String) : List String :=
  permissionPatterns.foldl
    (fun permissions pat =>
      match indexOfSub mw pat.1 with
      | none => permissions
      | some idx =>
        let start := idx + pat.1.data.length
        let tail := mw.data.drop start
        match scanCloseParen tail 0 1 with
        | none => permissions
        | some rel =>
          if rel > 0 then
            let args := String.mk (tail.take rel)
            if pat.2 then
              permissions ++ (goSplit args ",").filterMap (fun part =>
                let cleaned := cleanPermissionArg part
                if cleaned ≠ "" then some cleaned else none)
            else
              let cleaned := cleanPermissionArg args
              if cleaned ≠ "" then permissions ++ [cleaned] else permissions
          else permissions)
    []

/-- The accumulator loop of `analyzerContext.extractSecurity`: `none` models
the early `return` on a `NotAuthenticated` middleware entry. -/
def extractSecurityLoop : List String → Bool → List String → Option (Bool × List String)
  | [], hasAuth, scopes => some (hasAuth, scopes)
  | mw :: rest, hasAuth, scopes =>
    if strContains mw "NotAuthenticated" then none
    else
      extractSecurityLoop rest
        (hasAuth || (strContains mw "Authenticated" || strContains mw "IsAuthenticated"))
        (scopes ++ extractPermissionsFromMiddleware mw)

/-- `analyzerContext.extractSecurity`. -/
def extractSecurity (middleware : List String) : List SecurityRequirement :=
  match extractSecurityLoop middleware false [] with
  | none => []
  | some (hasAuth, scopes) =>
    if hasAuth then
      if !scopes.isEmpty then [{ name := "permissions", scopes := scopes }]
      else [{ name := "bearerAuth", scopes := [] }]
    else []

/-! ## schema.go: SchemaSpec and the type resolver

`SchemaSpec` is recursive (properties, items, additionalProperties), so it is
an inductive with one constructor; the unused numeric-constraint fields of the
Go struct (`Minimum`, `Maximum`, `MinLength`, `MaxLength`, `Pattern`, which no
code path ever assigns) are omitted. -/

/-- A literal enum value extracted by `tryExtractEnumValues` (string or int
constants only, matching the two `token` kinds the Go code accepts). -/
inductive EnumLit where
  | strV (s : String)
  | intV (n : Int)
deriving DecidableEq, Repr

inductive SchemaSpec where
  | mk (type format description ref : String)
       (properties : List (String × SchemaSpec))
       (required : List String)
       (items : Option SchemaSpec)
       (enum : List EnumLit)
       (additionalProperties : Option SchemaSpec)

def SchemaSpec.type : SchemaSpec → String
  | .mk t _ _ _ _ _ _ _ _ => t

def SchemaSpec.format : SchemaSpec → String
  | .mk _ f _ _ _ _ _ _ _ => f

def SchemaSpec.description : SchemaSpec → String
  | .mk _ _ d _ _ _ _ _ _ => d

def SchemaSpec.ref : SchemaSpec → String
  | .mk _ _ _ r _ _ _ _ _ => r

def SchemaSpec.properties : SchemaSpec → List (String × SchemaSpec)
  | .mk _ _ _ _ p _ _ _ _ => p

def SchemaSpec.required : SchemaSpec → List String
  | .mk _ _ _ _ _ rq _ _ _ => rq

def SchemaSpec.items : SchemaSpec → Option SchemaSpec
  | .mk _ _ _ _ _ _ i _ _ => i

def SchemaSpec.enum : SchemaSpec → List EnumLit
  | .mk _ _ _ _ _ _ _ e _ => e

def SchemaSpec.additionalProperties : SchemaSpec → Option SchemaSpec
  | .mk _ _ _ _ _ _ _ _ a => a

/-- The zero value `SchemaSpec{}`. -/
def emptySchema : SchemaSpec := .mk "" "" "" "" [] [] none [] none

/-- `SchemaSpec{Type: t}`. -/
def typeSchema (t : String) : SchemaSpec := .mk t "" "" "" [] [] none [] none

/-- `SchemaSpec{Type: t, Format: f}`. -/
def typeFormatSchema (t f : String) : SchemaSpec := .mk t f "" "" [] [] none [] none

/-- `SchemaSpec{Type: "object"}`, the generic open object schema. -/
def objectSchema : SchemaSpec := typeSchema "object"

/-- `SchemaSpec{Ref: "#/components/schemas/" + name}`. -/
def refSchema (name : String) : SchemaSpec :=
  .mk "" "" "" ("#/components/schemas/" ++ name) [] [] none [] none

/-- `TypeResolver.resolveBuiltInType`. -/
def resolveBuiltInType (typeName : String) : SchemaSpec :=
  if typeName = "string" then typeSchema "string"
  else if ["int", "int8", "int16", "int32", "int64"].contains typeName then
    typeFormatSchema "integer" "int64"
  else if ["uint", "uint8", "uint16", "uint32", "uint64"].contains typeName then
    typeFormatSchema "integer" "uint64"
  else if typeName = "float32" then typeFormatSchema "number" "float"
  else if typeName = "float64" then typeFormatSchema "number" "double"
  else if typeName = "bool" then typeSchema "boolean"
  else if typeName = "object" then typeSchema "object"
  else if typeName = "time.Time" ∨ typeName = "Time" then typeFormatSchema "string" "date-time"
  else if typeName = "uid.UID" ∨ typeName = "UID" then typeFormatSchema "string" "uuid"
  else emptySchema

/-- Go `strings.LastIndex` (char positions). -/
def lastIndexOfSub (s pat : String) : Option Nat :=
  match indexOfSub (String.mk s.data.reverse) (String.mk pat.data.reverse) with
  | none => none
  | some i => some (s.data.length - pat.data.length - i)

/-- `TypeResolver.cleanTypeName` (the analyzer file carries a character-for-
character identical copy `analyzerContext.cleanTypeName`; both are modelled by
this one definition).  The Go function recurses on the generic type argument;
the recursion is bounded by the string length, which the fuel makes
explicit. -/
def cleanTypeNameAux : Nat → String → String
  | 0, typeName => typeName
  | fuel + 1, typeName =>
    if strContains typeName "[" then
      match indexOfSub typeName "[", lastIndexOfSub typeName "]" with
      | some start, some stop =>
        if stop > start then
          let innerType := String.mk ((typeName.data.drop (start + 1)).take (stop - start - 1))
          cleanTypeNameAux fuel (trimPrefixStr innerType "[]")
        else splitLast typeName
      | _, _ => splitLast typeName
    else splitLast typeName
where
  /-- drop the package qualifier: the last `.`-separated component -/
  splitLast (typeName : String) : String :=
    let parts := goSplit typeName "."
    if parts.length > 1 then parts.getLastD "" else typeName

def cleanTypeName (typeName : String) : String :=
  cleanTypeNameAux (typeName.data.length + 1) typeName

/-- One tagged struct field, with the contents of its `json:"..."` and
`validate:"..."` tag entries (empty string when the tag entry is absent, as
`reflect.StructTag.Get` reports), its doc-comment lines, and its type
expression. -/
structure GoField where
  jsonTag : String
  validateTag : String
  doc : List String
  fieldType : GoExpr

/-- A constant spec from a `const` block (`*ast.ValueSpec`): the declared
type name when the constant is typed, and the literal values. -/
structure GoConst where
  typeName : Option String
  values : List (GoLitKind × String)

/-- The type-declaration shapes `parseFileForType` distinguishes. -/
inductive GoTypeDecl where
  /-- `type X struct {...}` -/
  | structDecl (doc : List String) (fields : List GoField)
  /-- `type X underlying` with an identifier underlying type -/
  | namedIdent (underlying : String)
  /-- `type X pkg.Sel` -/
  | namedSelector (pkg sel : String)
  /-- any other declaration shape: the `"unsupported type"` error path -/
  | otherDecl

/-- One type declaration reachable under the models root, together with the
typed constants declared in the same file (scanned by
`tryExtractEnumValues`).  The list of entries models, in scan order, what
`findAndParseType`'s directory walk and per-file parse produce. -/
structure GoTypeEntry where
  name : String
  decl : GoTypeDecl
  fileConsts : List GoConst

/-- `TypeResolver.tryExtractEnumValues`: typed constants of exactly the enum's
type name, keeping string and int literals. -/
def tryExtractEnumValues (consts : List GoConst) (typeName : String) : List EnumLit :=
  consts.foldl
    (fun acc c =>
      match c.typeName with
      | none => acc
      | some tn =>
        if tn = typeName then
          acc ++ c.values.filterMap (fun v =>
            match v.1 with
            | .stringL => (goUnquote v.2).map .strV
            | .intL => (goAtoi v.2).map .intV
            | .otherL => none)
        else acc)
    []

/-- `TypeResolver.mapUnderlyingTypeToOpenAPI`. -/
def mapUnderlyingTypeToOpenAPI (goType : String) : String :=
  if goType = "string" then "string"
  else if ["int", "int8", "int16", "int32", "int64"].contains goType then "integer"
  else if ["uint", "uint8", "uint16", "uint32", "uint64"].contains goType then "integer"
  else if goType = "float32" ∨ goType = "float64" then "number"
  else if goType = "bool" then "boolean"
  else "string"

/-- The mutable fields of `TypeResolver` (`projectRoot`, `modelsDir` and
`verbose` configure the filesystem walk, which the environment models). -/
structure ResolverState where
  schemas : List (String × SchemaSpec)
  processed : List String

def emptyResolverState : ResolverState := { schemas := [], processed := [] }

/-- The recursive knot of the resolver: helpers receive the
smaller-fuel `ResolveType` as a function argument. -/
abbrev ResolveFn := ResolverState → String → Option (SchemaSpec × ResolverState)

/-- `TypeResolver.parseFieldType`. -/
def parseFieldTypeW (resolve : ResolveFn) (st : ResolverState) :
    GoExpr → Option (SchemaSpec × ResolverState)
  | .ident name =>
    let builtIn := resolveBuiltInType name
    if builtIn.type ≠ "" then some (builtIn, st)
    else
      -- on a resolution error Go returns a generic object schema, but the
      -- modelled ResolveType never reports an error (only fuel exhaustion)
      resolve st name
  | .selectorE (.ident pkg) sel =>
    let typeName := pkg ++ "." ++ sel
    let builtIn := resolveBuiltInType typeName
    if builtIn.type ≠ "" then some (builtIn, st)
    else resolve st typeName
  | .arrayTypeE elt =>
    match parseFieldTypeW resolve st elt with
    | none => none
    | some (itemSchema, st') =>
      some (.mk "array" "" "" "" [] [] (some itemSchema) [] none, st')
  | .mapTypeE _ value =>
    match parseFieldTypeW resolve st value with
    | none => none
    | some (valueSchema, st') =>
      some (.mk "object" "" "" "" [] [] none [] (some valueSchema), st')
  | .starE x => parseFieldTypeW resolve st x
  | _ => some (objectSchema, st)

/-- `TypeResolver.parseField`. -/
def parseFieldW (resolve : ResolveFn) (st : ResolverState) (f : GoField)
    (schema : SchemaSpec) : Option (SchemaSpec × ResolverState) :=
  let parts := goSplit f.jsonTag ","
  let jsonName := if f.jsonTag ≠ "" then parts.headD "" else ""
  let omitempty := f.jsonTag ≠ "" && memStr "omitempty" (parts.drop 1)
  let required := f.validateTag ≠ "" && strContains f.validateTag "required"
  if jsonName = "" ∨ jsonName = "-" then some (schema, st)
  else
    match parseFieldTypeW resolve st f.fieldType with
    | none => none
    | some (fieldSchema, st') =>
      let fieldSchema :=
        if !f.doc.isEmpty then
          match fieldSchema with
          | .mk t fo _ r p rq i e a => .mk t fo (goJoin f.doc " ") r p rq i e a
        else fieldSchema
      match schema with
      | .mk t fo d r props req i e a =>
        some (.mk t fo d r (mapInsert props jsonName fieldSchema)
                (if !omitempty || required then req ++ [jsonName] else req) i e a, st')

/-- The field loop of `TypeResolver.parseStruct`. -/
def parseFieldsW (resolve : ResolveFn) (st : ResolverState) :
    List GoField → SchemaSpec → Option (SchemaSpec × ResolverState)
  | [], schema => some (schema, st)
  | f :: rest, schema =>
    match parseFieldW resolve st f schema with
    | none => none
    | some (schema', st') => parseFieldsW resolve st' rest schema'

/-- `TypeResolver.parseStruct`. -/
def parseStructW (resolve : ResolveFn) (st : ResolverState) (doc : List String)
    (fields : List GoField) : Option (SchemaSpec × ResolverState) :=
  parseFieldsW resolve st fields (.mk "object" "" (goJoin doc " ") "" [] [] none [] none)

/-- `TypeResolver.parseFileForType` on one located declaration; the inner
`none` is the `"unsupported type"` / not-a-match error, after which
`findAndParseType` keeps scanning. -/
def parseEntryTypeW (resolve : ResolveFn) (st : ResolverState) (e : GoTypeEntry) :
    Option (Option SchemaSpec × ResolverState) :=
  match e.decl with
  | .structDecl doc fields =>
    match parseStructW resolve st doc fields with
    | none => none
    | some (schema, st') => some (some schema, st')
  | .namedIdent underlying =>
    if hasSuffixStr e.name "Enum" then
      let values := tryExtractEnumValues e.fileConsts e.name
      some (some (.mk (mapUnderlyingTypeToOpenAPI underlying) ""
        ("Enum type: " ++ e.name) "" [] [] none values none), st)
    else some (some (resolveBuiltInType underlying), st)
  | .namedSelector pkg sel =>
    if hasSuffixStr e.name "Enum" then
      let values := tryExtractEnumValues e.fileConsts e.name
      some (some (.mk "string" "" ("Enum type: " ++ e.name) "" [] [] none values none), st)
    else some (some (resolveBuiltInType (pkg ++ "." ++ sel)), st)
  | .otherDecl => some (none, st)

/-- The file loop of `TypeResolver.findAndParseType`: scan entries in order
for a declaration named `structName`; a parse error makes it continue; the
exhausted scan is the `"type %s not found"` error (inner `none`). -/
def findInEntriesW (resolve : ResolveFn) (st : ResolverState) :
    List GoTypeEntry → String → Option (Option SchemaSpec × ResolverState)
  | [], _ => some (none, st)
  | e :: rest, structName =>
    if e.name = structName then
      match parseEntryTypeW resolve st e with
      | none => none
      | some (none, _) => findInEntriesW resolve st rest structName
      | some (some schema, st') => some (some schema, st')
    else findInEntriesW resolve st rest structName

/-- `TypeResolver.findAndParseType`: take the declared name out of an optional
`pkg.Name` qualification (the package maps to a directory, which the single
environment models), then scan. -/
def findAndParseTypeW (env : List GoTypeEntry) (resolve : ResolveFn)
    (st : ResolverState) (typeName : String) : Option (Option SchemaSpec × ResolverState) :=
  let structName :=
    if strContains typeName "." then ((goSplit typeName ".").drop 1).headD ""
    else typeName
  findInEntriesW resolve st env structName

/-- `TypeResolver.ResolveType`.  The fuel is decremented at each nested
re-entry; `none` means it ran out (the Go code has no fuel — the adequacy
theorem shows a fuel computed from the environment never runs out). -/
def resolveType (env : List GoTypeEntry) : Nat → ResolverState → String →
    Option (SchemaSpec × ResolverState)
  | 0, _, _ => none
  | fuel + 1, st, typeName =>
    let builtIn := resolveBuiltInType typeName
    if builtIn.type ≠ "" then some (builtIn, st)
    else
      let cleanName := cleanTypeName typeName
      if memStr typeName st.processed then some (refSchema cleanName, st)
      else
        let st1 : ResolverState := { st with processed := typeName :: st.processed }
        match findAndParseTypeW env (resolveType env fuel) st1 typeName with
        | none => none
        | some (none, st2) =>
          -- lookup failure: warn and return a generic object schema
          -- (note: nothing is recorded in the schema table)
          some (objectSchema, st2)
        | some (some schema, st2) =>
          some (refSchema cleanName,
                { st2 with schemas := mapInsert st2.schemas cleanName schema })

/-- `TypeResolver.GetSchemas`. -/
def getSchemas (st : ResolverState) : List (String × SchemaSpec) := st.schemas

/-! ## generator.go: the document model and the Spec Assembler

Fields of the Go structs that no code path ever assigns (`Example`,
`Examples`, `Deprecated`, `Summary`/`Description` on path items, contact and
license blocks, the unused flow kinds and the document-level `Security`
list) are omitted; a `map[string][]string` security entry is modelled as the
single pair the code always builds. -/

/-- `ParameterSpec` of the analyzer (`In` is a Lean keyword, hence `inLoc`). -/
structure ParameterSpec where
  name : String
  inLoc : String
  required : Bool
  description : String
  schema : SchemaSpec

/-- `RequestBodySpec` of the analyzer. -/
structure RequestBodySpec where
  description : String
  required : Bool
  contentType : String
  schema : SchemaSpec

/-- `ResponseSpec` of the analyzer. -/
structure ResponseSpec where
  description : String
  contentType : String
  schema : SchemaSpec

/-- `EndpointSpec` of the analyzer (`ControllerFile` and the handler's AST
pointer are bookkeeping and are not part of the document). -/
structure EndpointSpec where
  path : String
  method : String
  handler : String
  msName : String
  middleware : List String
  summary : String
  description : String
  tags : List String
  parameters : List ParameterSpec
  requestBody : Option RequestBodySpec
  responses : List (String × ResponseSpec)
  security : List SecurityRequirement

/-- `ParameterRef`. -/
structure ParameterRef where
  name : String
  inLoc : String
  description : String
  required : Bool
  schema : Option SchemaSpec

/-- `MediaTypeSpec`. -/
structure MediaTypeSpec where
  schema : Option SchemaSpec

/-- `RequestBodyRef`. -/
structure RequestBodyRef where
  description : String
  required : Bool
  content : List (String × MediaTypeSpec)

/-- `ResponseRef`. -/
structure ResponseRef where
  description : String
  content : List (String × MediaTypeSpec)

/-- `OperationSpec`. -/
structure OperationSpec where
  tags : List String
  summary : String
  description : String
  operationID : String
  parameters : List ParameterRef
  requestBody : Option RequestBodyRef
  responses : List (String × ResponseRef)
  security : List (String × List String)

/-- `PathItemSpec`. -/
structure PathItemSpec where
  get : Option OperationSpec := none
  post : Option OperationSpec := none
  put : Option OperationSpec := none
  delete : Option OperationSpec := none
  patch : Option OperationSpec := none
  options : Option OperationSpec := none
  head : Option OperationSpec := none
  parameters : List ParameterRef := []

/-- `TagSpec`. -/
structure TagSpec where
  name : String
  description : String

/-- `OAuthFlow`. -/
structure OAuthFlow where
  authorizationURL : String
  tokenURL : String
  scopes : List (String × String)

/-- `OAuthFlows` (only the authorization-code flow is ever built). -/
structure OAuthFlows where
  authorizationCode : Option OAuthFlow

/-- `SecuritySchemeSpec` (the Go field `Type` is spelled `schemeType` because
`type` does not parse as a field name in structure instances). -/
structure SecuritySchemeSpec where
  schemeType : String
  description : String := ""
  scheme : String := ""
  bearerFormat : String := ""
  flows : Option OAuthFlows := none

/-- `ComponentsSpec`. -/
structure ComponentsSpec where
  schemas : List (String × SchemaSpec)
  securitySchemes : List (String × SecuritySchemeSpec)

/-- `ServerSpec` (only the URL is ever set). -/
structure ServerSpec where
  url : String

/-- `InfoSpec`. -/
structure InfoSpec where
  title : String
  description : String
  version : String

/-- `OpenAPISpec`, the assembled document. -/
structure OpenAPISpec where
  openapi : String
  info : InfoSpec
  servers : List ServerSpec
  paths : List (String × PathItemSpec)
  components : ComponentsSpec
  tags : List TagSpec
  collectedScopes : List String

/-- `NewOpenAPISpec`. -/
def newOpenAPISpec (title version description : String) (servers : List ServerSpec) :
    OpenAPISpec :=
  { openapi := "3.0.0",
    info := { title := title, version := version, description := description },
    servers := servers,
    paths := [],
    components :=
      { schemas := [],
        securitySchemes :=
          [("bearerAuth",
            { schemeType := "http", scheme := "bearer", bearerFormat := "JWT",
              description := "JWT Bearer token authentication" })] },
    tags := [],
    collectedScopes := [] }

/-- `OpenAPISpec.normalizePath`: convert `:param` segments to `{param}`. -/
def OpenAPISpec.normalizePath (path : String) : String :=
  goJoin
    ((goSplit path "/").map (fun part =>
      if hasPrefixStr part ":" then "\x7b" ++ trimPrefixStr part ":" ++ "\x7d" else part))
    "/"

/-- `wrapResponseSchema`. -/
def wrapResponseSchema (schema : SchemaSpec) (statusCode : String) : SchemaSpec :=
  if hasPrefixStr statusCode "4" || hasPrefixStr statusCode "5" then schema
  else .mk "object" "" "" "" [("data", schema)] [] none [] none

/-- `OpenAPISpec.generateOperationID`. -/
def generateOperationID (endpoint : EndpointSpec) : String :=
  let method := toLowerStr endpoint.method
  let handler := trimSuffixStr (trimPrefixStr endpoint.handler "*") "Controller"
  method ++ "_" ++ handler

/-- The default 400 response injected by `createOperation`. -/
def default400Response : ResponseRef :=
  { description := "Bad Request",
    content := [("application/json",
      { schema := some (.mk "object" "" "" "" [("error", typeSchema "string")] [] none [] none) })] }

/-- The `responseRef` built for one `(code, response)` pair inside
`createOperation`'s response loop: the schema is wrapped by status code, and
content is only attached when the response carries a content type. -/
def responseRefOf (cr : String × ResponseSpec) : ResponseRef :=
  { description := cr.2.description,
    content :=
      if cr.2.contentType ≠ "" then
        [(cr.2.contentType, { schema := some (wrapResponseSchema cr.2.schema cr.1) })]
      else [] }

/-- `OpenAPISpec.createOperation`. -/
def createOperation (endpoint : EndpointSpec) : OperationSpec :=
  let operation : OperationSpec :=
    { tags := endpoint.tags,
      summary := endpoint.summary,
      description := endpoint.description,
      operationID := generateOperationID endpoint,
      parameters :=
        endpoint.parameters.map (fun param =>
          { name := param.name, inLoc := param.inLoc, description := param.description,
            required := param.required, schema := some param.schema }),
      requestBody :=
        endpoint.requestBody.map (fun rb =>
          { description := rb.description, required := rb.required,
            content := [(rb.contentType, { schema := some rb.schema })] }),
      responses :=
        endpoint.responses.foldl (fun acc cr => mapInsert acc cr.1 (responseRefOf cr)) [],
      security := [] }
  let operation :=
    if (lookupStr "400" operation.responses).isNone then
      { operation with responses := mapInsert operation.responses "400" default400Response }
    else operation
  if !endpoint.security.isEmpty then
    { operation with security := endpoint.security.map (fun sec => (sec.name, sec.scopes)) }
  else operation

/-- `OpenAPISpec.generateTagDescription`. -/
def generateTagDescription (tagName : String) : String :=
  tagName ++ " related endpoints"

/-- `OpenAPISpec.addTag`. -/
def addTag (s : OpenAPISpec) (tags : List String) (_msName : String) : OpenAPISpec :=
  tags.foldl
    (fun s newTag =>
      if s.tags.any (fun t => t.name = newTag) then s
      else { s with tags := s.tags ++ [{ name := newTag, description := generateTagDescription newTag }] })
    s

/-- `OpenAPISpec.AddEndpoint`. -/
def addEndpoint (s : OpenAPISpec) (endpoint : EndpointSpec) : OpenAPISpec :=
  let path := OpenAPISpec.normalizePath endpoint.path
  let pathItem := (lookupStr path s.paths).getD {}
  let operation := createOperation endpoint
  let method := toLowerStr endpoint.method
  let pathItem :=
    if method = "get" then { pathItem with get := some operation }
    else if method = "post" then { pathItem with post := some operation }
    else if method = "put" then { pathItem with put := some operation }
    else if method = "delete" then { pathItem with delete := some operation }
    else if method = "patch" then { pathItem with patch := some operation }
    else if method = "options" then { pathItem with options := some operation }
    else if method = "head" then { pathItem with head := some operation }
    else pathItem
  let s := { s with paths := mapInsert s.paths path pathItem }
  let s := addTag s endpoint.tags endpoint.msName
  -- `resolveSchemas` is a no-op in the source
  endpoint.security.foldl
    (fun s sec => sec.scopes.foldl (fun s scope => { s with collectedScopes := setInsert s.collectedScopes scope }) s)
    s

/-- `OpenAPISpec.FinalizeSecuritySchemes`. -/
def finalizeSecuritySchemes (s : OpenAPISpec) (oauthAuthorize oauthToken : String) :
    OpenAPISpec :=
  if s.collectedScopes.isEmpty then s
  else
    let scopes := s.collectedScopes.map (fun scope => (scope, "Permission: " ++ scope))
    let permScheme : SecuritySchemeSpec :=
      { schemeType := "oauth2",
        description := "OAuth2 with permission scopes extracted from middleware",
        flows := some
          { authorizationCode := some
              { authorizationURL := oauthAuthorize, tokenURL := oauthToken,
                scopes := scopes } } }
    { s with
        components :=
          { s.components with
              securitySchemes :=
                mapInsert s.components.securitySchemes "permissions" permScheme } }

mutual
/-- `OpenAPISpec.collectTypeRefFromSingleSchema`, returning the referenced
type names (the last `/`-segment of each `$ref`) in traversal order. -/
def collectRefsSchema : SchemaSpec → List String
  | .mk _ _ _ r props _ items _ _ =>
    (if r ≠ "" then [(goSplit r "/").getLastD ""] else [])
      ++ collectRefsProps props ++ collectRefsOpt items

def collectRefsProps : List (String × SchemaSpec) → List String
  | [] => []
  | (_, s) :: rest => collectRefsSchema s ++ collectRefsProps rest

def collectRefsOpt : Option SchemaSpec → List String
  | none => []
  | some s => collectRefsSchema s
end

/-- `OpenAPISpec.collectTypeRefsFromSchema` over a content map. -/
def collectRefsContent (content : List (String × MediaTypeSpec)) : List String :=
  content.foldl
    (fun acc mt =>
      match mt.2.schema with
      | some s => acc ++ collectRefsSchema s
      | none => acc)
    []

/-- The type references contributed by one operation. -/
def collectRefsOperation (op : OperationSpec) : List String :=
  (match op.requestBody with
   | some rb => collectRefsContent rb.content
   | none => [])
  ++ op.responses.foldl (fun acc r => acc ++ collectRefsContent r.2.content) []
  ++ op.parameters.foldl
      (fun acc p =>
        match p.schema with
        | some s => acc ++ collectRefsSchema s
        | none => acc)
      []

/-- `OpenAPISpec.collectTypeReferences`: the set of referenced type names,
as the deduplicated list of names in traversal order (Go builds a
`map[string]bool`; only membership matters downstream). -/
def collectTypeReferences (s : OpenAPISpec) : List String :=
  (s.paths.foldl
    (fun acc p =>
      acc ++ ([p.2.get, p.2.post, p.2.put, p.2.delete, p.2.patch, p.2.options, p.2.head].foldl
        (fun acc op =>
          match op with
          | some op => acc ++ collectRefsOperation op
          | none => acc)
        []))
    []).foldl setInsert []

/-- The resolution loop of `OpenAPISpec.resolveAllSchemas`: resolve each
referenced name in turn, threading resolver state (the Go loop ignores the
returned schema, and the resolver never reports an error). -/
def resolveLoop (env : List GoTypeEntry) (fuel : Nat) :
    ResolverState → List String → Option ResolverState
  | st, [] => some st
  | st, typeName :: rest =>
    match resolveType env fuel st typeName with
    | none => none
    | some (_, st') => resolveLoop env fuel st' rest

/-- `OpenAPISpec.resolveAllSchemas`: resolve every collected reference, then
merge the resolver's schema table into `components.schemas`. -/
def resolveAllSchemas (env : List GoTypeEntry) (fuel : Nat) (st : ResolverState)
    (s : OpenAPISpec) : Option OpenAPISpec :=
  match resolveLoop env fuel st (collectTypeReferences s) with
  | none => none
  | some st' =>
    some { s with components :=
      { s.components with schemas :=
          (getSchemas st').foldl (fun m kv => mapInsert m kv.1 kv.2) s.components.schemas } }

/-! ## business_layer.go: the Business-Layer Registry (query side) -/

/-- `BusinessLayerMethod`. -/
structure BusinessLayerMethod where
  name : String
  returnTypes : List String

/-- `BusinessLayerInfo`. -/
structure BusinessLayerInfo where
  packagePath : String
  typeName : String
  methods : List (String × BusinessLayerMethod)

/-- `BusinessLayerRegistry` after its one-time build (`ScanBusinessLayers`
walks the filesystem; the populated, read-only table is the model). -/
structure BusinessLayerRegistry where
  layers : List (String × BusinessLayerInfo)

/-- `BusinessLayerRegistry.GetMethodReturnType`: the first non-error return
type of the method, or `""`.  The Go fallback ranges over the `layers` map in
unspecified order; the model scans in list order. -/
def getMethodReturnType (r : BusinessLayerRegistry)
    (packageName typeName methodName : String) : String :=
  let info? :=
    match lookupStr (packageName ++ "." ++ typeName) r.layers with
    | some info => some info
    | none =>
      (r.layers.find? (fun (kv : String × BusinessLayerInfo) => kv.2.typeName == typeName)).map
        Prod.snd
  match info? with
  | none => ""
  | some info =>
    match lookupStr methodName info.methods with
    | none => ""
    | some method =>
      (method.returnTypes.find? (fun rt => rt != "error" && !hasSuffixStr rt ".error")).getD ""

/-- `BusinessLayerRegistry.LookupMethodByFieldType`. -/
def lookupMethodByFieldType (r : BusinessLayerRegistry)
    (fieldType methodName : String) : String :=
  let fieldType := trimPrefixStr fieldType "*"
  let parts := goSplit fieldType "."
  if parts.length ≠ 2 then ""
  else getMethodReturnType r (parts.headD "") ((parts.drop 1).headD "") methodName

/-! ## the analyzer: `analyzerContext` and `enhanceEndpoint`

`parseDirectoryFiles` (the collection pass over the handler directory) is
filesystem I/O; its product — the function table, the namespaced controller
fields and the registry — is the model's `AnalyzerContext`. -/

/-- A collected `*ast.FuncDecl`: receiver type expression, extracted
doc-comment lines (as `extractComments` yields them), and body. -/
structure GoFuncDecl where
  name : String
  recv : Option GoExpr
  doc : List String
  body : Option (List GoStmt)

/-- The populated `analyzerContext` (minus `fset`/file paths/verbose). -/
structure AnalyzerContext where
  msName : String
  functions : List (String × GoFuncDecl)
  businessLayerRegistry : Option BusinessLayerRegistry
  controllerFields : List (String × String)

/-- `analyzerContext.extractReceiverType`. -/
def extractReceiverType (funcDecl : GoFuncDecl) : String :=
  match funcDecl.recv with
  | none => ""
  | some (.starE (.ident n)) => n
  | some (.ident n) => n
  | some _ => ""

/-- `analyzerContext.getControllerFieldType` (keys are
`controllerType.fieldName`). -/
def getControllerFieldType (ac : AnalyzerContext) (controllerType fieldName : String) :
    Option String :=
  lookupStr (controllerType ++ "." ++ fieldName) ac.controllerFields

/-- `formatTagName`: split a path segment on `-`/`_`, capitalize each part
(rest lowered), join with spaces. -/
def formatTagName (segment : String) : String :=
  let parts :=
    (segment.data.foldl
      (fun (acc : List (List Char) × List Char) c =>
        if c = '-' ∨ c = '_' then
          if !acc.2.isEmpty then (acc.1 ++ [acc.2.reverse], []) else acc
        else (acc.1, c :: acc.2))
      ([], []))
  let parts := if !parts.2.isEmpty then parts.1 ++ [parts.2.reverse] else parts.1
  goJoin
    (parts.map (fun part =>
      match part with
      | [] => ""
      | first :: rest =>
        let first := if 'a' ≤ first ∧ first ≤ 'z' then Char.ofNat (first.toNat - 32) else first
        String.mk (first :: rest.map Char.toLower)))
    " "

/-- `extractPathPrefix` of the analyzer (the first path segment formatted as
a tag name; renamed, the source name does not survive the lint). -/
def extractPathLeadSegment (path : String) : String :=
  let trimmedPath := trimPrefixStr path "/"
  if trimmedPath = "" then ""
  else
    let firstSegment :=
      match indexOfSub trimmedPath "/" with
      | none => trimmedPath
      | some i => String.mk (trimmedPath.data.take i)
    if hasPrefixStr firstSegment ":" then ""
    else if firstSegment.data.length = 0 then ""
    else formatTagName firstSegment

/-- `analyzerContext.assignTags`. -/
def assignTags (ac : AnalyzerContext) (path : String) : List String :=
  let tag := extractPathLeadSegment path
  if tag = "" then [ac.msName] else [tag]

/-- `analyzerContext.extractPathParameters`. -/
def extractPathParameters (path : String) : List ParameterSpec :=
  (goSplit path "/").filterMap (fun part =>
    if hasPrefixStr part ":" then
      let paramName := trimPrefixStr part ":"
      some { name := paramName, inLoc := "path", required := true,
             description := "Path parameter: " ++ paramName,
             schema := typeSchema "string" }
    else none)

/-- `analyzerContext.inferParamSchema`. -/
def inferParamSchema (methodName : String) : SchemaSpec :=
  if methodName = "ParamsUID" then typeFormatSchema "string" "uuid"
  else if methodName = "ParamsUint64" then typeFormatSchema "integer" "uint64"
  else if methodName = "ParamsInt" then typeFormatSchema "integer" "int64"
  else typeSchema "string"

/-- `analyzerContext.extractTypeName`. -/
def extractTypeName : GoExpr → String
  | .ident n => n
  | .selectorE (.ident pkg) sel => pkg ++ "." ++ sel
  | .selectorE _ sel => sel
  | _ => ""

/-- `analyzerContext.isIntegerLiteral`. -/
def isIntegerLiteral : GoExpr → Bool
  | .basicLit .intL _ => true
  | _ => false

/-- `analyzerContext.extractIntegerLiteral`. -/
def extractIntegerLiteral : GoExpr → String
  | .basicLit .intL v => v
  | _ => ""

/-- `analyzerContext.extractTypeFromUnaryExpr`. -/
def extractTypeFromUnaryExpr (expr : GoExpr) (varTypes : List (String × String)) : String :=
  match expr with
  | .addrOf (.compositeLit t) =>
    match t with
    | some te => extractTypeName te
    | none => ""
  | .addrOf (.ident n) => (lookupStr n varTypes).getD n
  | _ => ""

/-- `analyzerContext.inferTypeFromExpr`. -/
def inferTypeFromExpr : GoExpr → String
  | .compositeLit t =>
    (match t with
     | some te => extractTypeName te
     | none => "")
  | .callE (.ident n) _ => n
  | .callE (.selectorE _ sel) _ => sel
  | .ident n => n
  | _ => "object"

/-- `analyzerContext.tryFindResponseType`: the first candidate
`baseName ++ suffix` that is nonempty (the resolver validates it later). -/
def tryFindResponseType (baseName : String) (suffixes : List String) : String :=
  match suffixes.find? (fun suffix => baseName ++ suffix != "") with
  | some suffix => baseName ++ suffix
  | none => baseName

/-- The chained business-layer lookup shared by `inferTypeFromExprWithVars`
and `inferResponseTypeFromCall`: for `receiver.field.Method(...)`, look the
field's declared type up on the controller and ask the registry. -/
def businessLayerLookup (ac : AnalyzerContext) (selX : GoExpr)
    (methodName receiverType : String) : String :=
  match selX with
  | .selectorE _ fieldName =>
    (match getControllerFieldType ac receiverType fieldName with
     | some fieldTypeName =>
       (match ac.businessLayerRegistry with
        | some registry => lookupMethodByFieldType registry fieldTypeName methodName
        | none => "")
     | none => "")
  | _ => ""

/-- `analyzerContext.inferTypeFromExprWithVars`. -/
def inferTypeFromExprWithVars (ac : AnalyzerContext) (expr : GoExpr)
    (varTypes : List (String × String)) (receiverType : String) : String :=
  match expr with
  | .compositeLit t =>
    (match t with
     | some te => extractTypeName te
     | none => "")
  | .callE (.selectorE selX methodName) _ =>
    let fromRegistry := businessLayerLookup ac selX methodName receiverType
    if fromRegistry ≠ "" then fromRegistry else methodName
  | .callE (.ident n) _ => n
  | .callE _ _ => "object"
  | .ident n => (lookupStr n varTypes).getD n
  | .addrOf x => inferTypeFromExprWithVars ac x varTypes receiverType
  | _ => "object"

/-- `analyzerContext.inferResponseTypeFromCall`. -/
def inferResponseTypeFromCall (ac : AnalyzerContext) (call : GoExpr)
    (receiverType : String) : String :=
  match call with
  | .callE (.selectorE selX methodName) _ =>
    let fromRegistry := businessLayerLookup ac selX methodName receiverType
    if fromRegistry ≠ "" then fromRegistry
    else if hasPrefixStr methodName "Create" then
      tryFindResponseType (trimPrefixStr methodName "Create") ["Response", "View", ""]
    else if hasPrefixStr methodName "Update" then
      tryFindResponseType (trimPrefixStr methodName "Update") ["Response", "View", ""]
    else if hasPrefixStr methodName "Get" then
      tryFindResponseType (trimPrefixStr methodName "Get") ["Response", "View", ""]
    else if hasPrefixStr methodName "List" then
      tryFindResponseType (trimPrefixStr methodName "List") ["ListResponse", "List", "Response"]
    else tryFindResponseType methodName ["Response", ""]
  | _ => ""

/-- Assign an inferred type to the first left-hand identifier that is neither
`err` nor `_` (the `break`-ing loop of the single-call `:=` case). -/
def assignFirstVar (varTypes : List (String × String)) (lhs : List GoExpr)
    (value : String) : List (String × String) :=
  match lhs with
  | [] => varTypes
  | .ident n :: rest =>
    if n ≠ "err" ∧ n ≠ "_" then mapInsert varTypes n value
    else assignFirstVar varTypes rest value
  | _ :: rest => assignFirstVar varTypes rest value

/-- The indexed `for i, lhs := range x.Lhs` loop assigning
`inferTypeFromExpr` of the matching right-hand side. -/
def assignEachVar (varTypes : List (String × String)) :
    List GoExpr → List GoExpr → List (String × String)
  | [], _ => varTypes
  | _, [] => varTypes
  | l :: ls, r :: rs =>
    assignEachVar
      (match l with
       | .ident n => mapInsert varTypes n (inferTypeFromExpr r)
       | _ => varTypes)
      ls rs

/-- The `var` declaration branch of the first pass. -/
def firstPassValueSpec (varTypes : List (String × String)) (sp : GoValueSpec) :
    List (String × String) :=
  go varTypes sp.names sp.values
where
  go (varTypes : List (String × String)) :
      List String → List GoExpr → List (String × String)
    | [], _ => varTypes
    | n :: ns, [] =>
      (match sp.typeE with
       | some te => go (mapInsert varTypes n (extractTypeName te)) ns []
       | none => go varTypes ns [])
    | n :: ns, v :: vs =>
      (match sp.typeE with
       | some te => go (mapInsert varTypes n (extractTypeName te)) ns vs
       | none => go (mapInsert varTypes n (inferTypeFromExpr v)) ns vs)

/-- One step of the first pass of `analyzeFunctionBody` (local
variable-to-type map from declarations and `:=` assignments). -/
def firstPassStmt (ac : AnalyzerContext) (receiverType : String)
    (varTypes : List (String × String)) : GoStmt → List (String × String)
  | .varDeclS specs => specs.foldl firstPassValueSpec varTypes
  | .assignS true lhs rhs =>
    (match rhs with
     | [.callE fn args] =>
       let inferredType := inferResponseTypeFromCall ac (.callE fn args) receiverType
       assignFirstVar varTypes lhs
         (if inferredType ≠ "" then inferredType else inferTypeFromExpr (.callE fn args))
     | _ => assignEachVar varTypes lhs rhs)
  | _ => varTypes


/-- The `"Response"` branch of `analyzeCallExpr`. -/
def analyzeResponseCall (ac : AnalyzerContext) (args : List GoExpr)
    (spec : EndpointSpec) (varTypes : List (String × String))
    (receiverType : String) : EndpointSpec :=
  if args.length ≥ 2 then
    let second := args.getD 1 .otherE
    let triple : String × Bool × Nat :=
      if args.length ≥ 3 ∧ isIntegerLiteral second then
        (extractIntegerLiteral second, true, 2)
      else if args.length = 2 ∧ isIntegerLiteral second then
        (extractIntegerLiteral second, false, 1)
      else ("200", true, 1)
    let statusCode := triple.1
    let hasData := triple.2.1
    let dataArgIndex := triple.2.2
    if !hasData then
      let okResp : ResponseSpec :=
        { description := "Successful response", contentType := "application/json",
          schema := .mk "string" "" "Returns \"Ok\"" "" [] [] none [] none }
      { spec with responses := mapInsert spec.responses statusCode okResp }
    else
      let dataArg := args.getD dataArgIndex .otherE
      let isErrorResponse : Bool :=
        match dataArg with
        | .ident n => n = "err"
        | _ => false
      if isErrorResponse then
        let errResp : ResponseSpec :=
          { description := "Error response", contentType := "application/json",
            schema := .mk "object" "" "" "" [("error", typeSchema "string")] [] none [] none }
        { spec with responses := mapInsert spec.responses statusCode errResp }
      else
        let respType := inferTypeFromExprWithVars ac dataArg varTypes receiverType
        let cleanedTypeName := cleanTypeName respType
        if cleanedTypeName ≠ "" ∧ cleanedTypeName ≠ "object" then
          let refResp : ResponseSpec :=
            { description := "Successful response", contentType := "application/json",
              schema := refSchema cleanedTypeName }
          { spec with responses := mapInsert spec.responses statusCode refResp }
        else
          let genericResp : ResponseSpec :=
            { description := "Successful response", contentType := "application/json",
              schema := objectSchema }
          { spec with responses := mapInsert spec.responses statusCode genericResp }
  else
    let noContent : ResponseSpec :=
      { description := "No content", contentType := "", schema := emptySchema }
    { spec with responses := mapInsert spec.responses "204" noContent }

/-- `analyzerContext.analyzeCallExpr`. -/
def analyzeCallExpr (ac : AnalyzerContext) (call : GoExpr) (spec : EndpointSpec)
    (varTypes : List (String × String)) (receiverType : String) : EndpointSpec :=
  match call with
  | .callE (.selectorE _ methodName) args =>
    if methodName = "Params" ∨ methodName = "ParamsUID" ∨
        methodName = "ParamsUint64" ∨ methodName = "ParamsInt" then
      if args.length > 0 then
        let argIndex := if methodName ≠ "Params" then 1 else 0
        if argIndex < args.length then
          let paramName := extractStringLiteral (args.getD argIndex .otherE)
          if paramName ≠ "" then
            { spec with parameters := spec.parameters ++
                [{ name := paramName, inLoc := "path", required := true,
                   description := "Path parameter: " ++ paramName,
                   schema := inferParamSchema methodName }] }
          else spec
        else spec
      else spec
    else if methodName = "DeserializeFromFn" then
      if args.length ≥ 2 then
        let reqType := extractTypeFromUnaryExpr (args.getD 1 .otherE) varTypes
        if reqType ≠ "" then
          let rb : RequestBodySpec :=
            { description := "Request body", required := true,
              contentType := "application/json",
              schema := refSchema (cleanTypeName reqType) }
          { spec with requestBody := some rb }
        else spec
      else spec
    else if methodName = "Response" then
      analyzeResponseCall ac args spec varTypes receiverType
    else if methodName = "ParseQueryParameters" then
      { spec with parameters := spec.parameters ++
          [{ name := "query", inLoc := "query", required := false,
             description := "Query parameters for filtering, sorting, and pagination",
             schema := objectSchema }] }
    else if methodName = "APIError" then
      if (lookupStr "400" spec.responses).isNone then
        let errResp : ResponseSpec :=
          { description := "Bad request or error response", contentType := "application/json",
            schema := .mk "object" "" "" "" [("error", typeSchema "string")] [] none [] none }
        { spec with responses := mapInsert spec.responses "400" errResp }
      else spec
    else spec
  | _ => spec

/-- `analyzerContext.analyzeFunctionBody`: first pass builds the variable
type map over all nested statements, second pass analyzes every call. -/
def analyzeFunctionBody (ac : AnalyzerContext) (body : List GoStmt)
    (spec : EndpointSpec) (receiverType : String) : EndpointSpec :=
  let varTypes := (stmtListSubstmts body).foldl (firstPassStmt ac receiverType) []
  (stmtListCallsPre body).foldl
    (fun sp call => analyzeCallExpr ac call sp varTypes receiverType) spec

/-- The default response synthesized when none was recorded. -/
def defaultSuccessResponse : ResponseSpec :=
  { description := "Successful response", contentType := "application/json",
    schema := objectSchema }

/-- `analyzerContext.enhanceEndpoint`. -/
def enhanceEndpoint (ac : AnalyzerContext) (basic : EndpointInfo) : EndpointSpec :=
  let spec : EndpointSpec :=
    { path := basic.path,
      method := toUpperStr basic.method,
      handler := basic.handler,
      msName := basic.msName,
      middleware := basic.middleware,
      summary := "",
      description := "",
      tags := assignTags ac basic.path,
      parameters := [],
      requestBody := none,
      responses := [],
      security := extractSecurity basic.middleware }
  match lookupStr basic.handler ac.functions with
  | none => spec
  | some handlerFunc =>
    let receiverType := extractReceiverType handlerFunc
    let spec :=
      match handlerFunc.doc with
      | [] => spec
      | c :: rest =>
        { spec with summary := c,
                    description := if !rest.isEmpty then goJoin rest "\n" else spec.description }
    let spec :=
      match handlerFunc.body with
      | none => spec
      | some body => analyzeFunctionBody ac body spec receiverType
    let existingParams := spec.parameters.map ParameterSpec.name
    let pathParams := extractPathParameters spec.path
    let spec :=
      { spec with parameters := spec.parameters ++
          pathParams.filter (fun (p : ParameterSpec) => !memStr p.name existingParams) }
    if spec.responses.isEmpty then
      { spec with responses := [("200", defaultSuccessResponse)] }
    else spec

/-! ## Shared lemmas -/

lemma lookupStr_mapInsert_self {α : Type} (m : List (String × α)) (k : String) (v : α) :
    lookupStr k (mapInsert m k v) = some v := by
  induction m with
  | nil => simp [mapInsert, lookupStr]
  | cons kv rest ih =>
    by_cases h : kv.1 = k
    · simp [mapInsert, h, lookupStr]
    · simp [mapInsert, h, lookupStr, ih]

lemma lookupStr_mapInsert_ne {α : Type} (m : List (String × α)) (k k' : String) (v : α)
    (h : k' ≠ k) : lookupStr k' (mapInsert m k v) = lookupStr k' m := by
  have hk : ¬k = k' := fun hh => h hh.symm
  induction m with
  | nil => simp [mapInsert, lookupStr, hk]
  | cons kv rest ih =>
    obtain ⟨k0, v0⟩ := kv
    by_cases h0 : k0 = k
    · subst h0
      simp [mapInsert, lookupStr, hk]
    · simp [mapInsert, lookupStr, h0, ih]

lemma memStr_iff_mem (k : String) (l : List String) : memStr k l = true ↔ k ∈ l := by
  induction l with
  | nil => simp [memStr]
  | cons x rest ih =>
    simp only [memStr, Bool.or_eq_true, decide_eq_true_eq, List.mem_cons, ih]
    constructor
    · rintro (h | h)
      · exact Or.inl h.symm
      · exact Or.inr h
    · rintro (h | h)
      · exact Or.inl h.symm
      · exact Or.inr h

lemma isPrefixL_single {c : Char} {l : List Char} :
    isPrefixL [c] l = true ↔ ∃ t, l = c :: t := by
  cases l with
  | nil => simp [isPrefixL]
  | cons x t =>
    constructor
    · intro h
      simp only [isPrefixL, Bool.and_eq_true, decide_eq_true_eq] at h
      exact ⟨t, by rw [h.1]⟩
    · rintro ⟨t', ht⟩
      cases ht
      simp [isPrefixL]

/-! ## Claim C4 -/

/-- The nested-group program refuting the normalization claim: the parent
group path `/v1` has no trailing slash, the child path `users` has no leading
slash, and the code concatenates them without normalization. -/
def c4stmts : List GoStmt :=
  [.assignS true [.ident "root"]
     [.callE (.selectorE (.ident "server") "Group") [.basicLit .stringL "\"/v1\""]],
   .assignS true [.ident "a"]
     [.callE (.selectorE (.ident "root") "Group") [.basicLit .stringL "\"users\""]],
   .exprS (.callE (.selectorE (.ident "a") "Get") [.basicLit .stringL "\"/x\"", .ident "h"])]

/-- Claim C4, counterexample: for the nested groups
`root := server.Group("/v1")`, `a := root.Group("users")`, the Route Graph
Builder records group path `/v1users` for `a` — the concatenation of parent
and child group paths is not normalized (the claimed behavior would give
`/v1/users`) — and the extracted endpoint inherits the unnormalized path. -/
theorem claim_C4_counterexample :
    lookupStr "a" (walkFileCtx "ms" c4stmts).1.groupPaths = some "/v1users" ∧
    walkFile "ms" c4stmts =
      [{ path := "/v1users/x", method := "Get", handler := "h", msName := "ms",
         middleware := [] }] :=
  ⟨rfl, rfl⟩

/-- Claim C4, amended: only the group-path-plus-endpoint-path combination
(`normalizePath`) trims a trailing slash on the parent and ensures a leading
slash on the child, and it does so only when both sides are nonempty; an
empty parent returns the endpoint path unchanged (no leading slash ensured),
an empty endpoint path returns the group path unchanged, and both empty give
`/`.  The parent-group-plus-child-group combination in `handleAssignment` is
plain string concatenation with no normalization at all. -/
theorem claim_C4_amended :
    (normalizePath "" "" = "/") ∧
    (∀ e, e ≠ "" → normalizePath "" e = e) ∧
    (∀ g, g ≠ "" → normalizePath g "" = g) ∧
    (∀ g e, g ≠ "" → e ≠ "" →
       normalizePath g e =
         (let g' := trimSuffixStr g "/"
          let e' := if hasPrefixStr e "/" then e else "/" ++ e
          if g' = "" ∨ g' = "/" then e' else g' ++ e')) ∧
    (∀ ctx varName parentName parentPath pathArg args,
       lookupStr parentName ctx.groupPaths = some parentPath →
       extractStringLiteral pathArg ≠ "" →
       lookupStr varName
         (handleAssignment ctx [.ident varName]
           [.callE (.selectorE (.ident parentName) "Group") (pathArg :: args)]).groupPaths
         = some (parentPath ++ extractStringLiteral pathArg)) := by
  refine ⟨rfl, ?_, ?_, ?_, ?_⟩
  · intro e he
    simp [normalizePath, he]
  · intro g hg
    simp [normalizePath, hg]
  · intro g e hg he
    simp [normalizePath, hg, he]
  · intro ctx varName parentName parentPath pathArg args hparent hpath
    simp only [handleAssignment, hparent, hpath, if_pos rfl, ite_true, if_neg, hpath]
    simp [hpath, lookupStr_mapInsert_self]

/-- Claim C4, amended, witness at concrete inputs. -/
theorem claim_C4_amended_witness :
    normalizePath "" "users" = "users" ∧
    normalizePath "/v1" "" = "/v1" ∧
    normalizePath "/v1/" "users" = "/v1/users" ∧
    lookupStr "a"
      (handleAssignment
        { groupPaths := [("root", "/v1")], groupMiddleware := [], varBindings := [],
          msName := "ms" }
        [.ident "a"]
        [.callE (.selectorE (.ident "root") "Group")
          [.basicLit .stringL "\"users\""]]).groupPaths = some "/v1users" := by
  refine ⟨?_, ?_, ?_, ?_⟩
  · exact claim_C4_amended.2.1 "users" (by decide)
  · exact claim_C4_amended.2.2.1 "/v1" (by decide)
  · exact (claim_C4_amended.2.2.2.1 "/v1/" "users" (by decide) (by decide)).trans (by rfl)
  · exact claim_C4_amended.2.2.2.2
      { groupPaths := [("root", "/v1")], groupMiddleware := [], varBindings := [],
        msName := "ms" }
      "a" "root" "/v1" (.basicLit .stringL "\"users\"") [] (by rfl) (by decide)

/-! ## Claim C10 -/

/-- The argument shapes the claim treats as handler-like: identifier,
selector (method reference), call expression, function literal. -/
def looksLikeHandlerNode : GoExpr → Bool
  | .ident _ => true
  | .callE _ _ => true
  | .selectorE _ _ => true
  | .funcLit => true
  | _ => false

lemma extractHandlerName_of_not_handlerNode {a : GoExpr}
    (h : looksLikeHandlerNode a = false) : extractHandlerName a = "" := by
  cases a <;> simp_all [looksLikeHandlerNode, extractHandlerName]

lemma splitHandler_eq_none {args : List GoExpr}
    (h : ∀ a ∈ args, extractHandlerName a = "") : splitHandler args = none := by
  induction args with
  | nil => rfl
  | cons a rest ih =>
    have ha := h a (List.mem_cons_self a rest)
    have hrest := ih (fun x hx => h x (List.mem_cons_of_mem a hx))
    simp [splitHandler, hrest, ha]

/-- Claim C10: an HTTP-verb method call with fewer than two arguments, or in
which no argument after the path is an identifier, selector, call expression
or function literal, produces no `EndpointInfo` at all. -/
theorem claim_C10_no_handler_no_endpoint (ctx : ParseContext) (selX : GoExpr)
    (method : String) (args : List GoExpr)
    (hm : isHTTPMethod method = true)
    (h : args.length < 2 ∨ ∀ a ∈ args.drop 1, looksLikeHandlerNode a = false) :
    parseHTTPMethodCall ctx (.callE (.selectorE selX method) args) = none := by
  by_cases hlen : args.length < 2
  · simp [parseHTTPMethodCall, hm, hlen]
  · rcases h with h | h
    · exact absurd h hlen
    · have hsplit : splitHandler (args.drop 1) = none :=
        splitHandler_eq_none (fun a ha =>
          extractHandlerName_of_not_handlerNode (h a ha))
      rw [List.drop_one] at hsplit
      simp [parseHTTPMethodCall, hm, hlen, hsplit]

/-- Claim C10, witness: `g.Get("/x", "str")` — the only argument after the
path is a string literal — yields no endpoint. -/
theorem claim_C10_witness :
    parseHTTPMethodCall
      { groupPaths := [], groupMiddleware := [], varBindings := [], msName := "ms" }
      (.callE (.selectorE (.ident "g") "Get")
        [.basicLit .stringL "\"/x\"", .basicLit .stringL "\"str\""]) = none :=
  claim_C10_no_handler_no_endpoint _ _ "Get" _ (by rfl)
    (Or.inr (by intro a ha; simp at ha; subst ha; rfl))

/-! ## Claims C5 and C6 -/

lemma extractSecurityLoop_eq_none {l : List String} {mw : String}
    (hmem : mw ∈ l) (hc : strContains mw "NotAuthenticated" = true) :
    ∀ a b, extractSecurityLoop l a b = none := by
  induction l with
  | nil => cases hmem
  | cons x rest ih =>
    intro a b
    by_cases hx : strContains x "NotAuthenticated" = true
    · simp [extractSecurityLoop, hx]
    · rcases List.mem_cons.mp hmem with h | h
      · subst h; exact absurd hc hx
      · simp only [extractSecurityLoop, Bool.not_eq_true] at hx ⊢
        rw [hx]
        exact ih h _ _

/-- Claim C5: any middleware chain containing a `NotAuthenticated` entry
derives an empty security requirement list, whatever else the chain holds. -/
theorem claim_C5_anonymous_short_circuit (middleware : List String) (mw : String)
    (hmem : mw ∈ middleware) (hc : strContains mw "NotAuthenticated" = true) :
    extractSecurity middleware = [] := by
  unfold extractSecurity
  rw [extractSecurityLoop_eq_none hmem hc]

/-- Claim C5, witness: a chain that also carries an authentication marker and
a permission call still derives no security requirements. -/
theorem claim_C5_witness :
    "x.NotAuthenticated()" ∈
      ["x.NotAuthenticated()", "x.IsAuthenticated.Authenticated()", "hasPermission(\"admin\")"] ∧
    strContains "x.NotAuthenticated()" "NotAuthenticated" = true ∧
    extractSecurity
      ["x.NotAuthenticated()", "x.IsAuthenticated.Authenticated()", "hasPermission(\"admin\")"]
      = [] :=
  ⟨by decide, by rfl,
   claim_C5_anonymous_short_circuit _ "x.NotAuthenticated()" (by decide) (by rfl)⟩

/-- Claim C6, counterexample: the chain
`["x.NotAuthenticated()", "x.Authenticated()", "AllFeaturesOf(\"admin\")"]`
contains an authentication marker (its second entry) and a permission call
contributing scope `admin`, yet the derived security list is empty — not the
single scoped `permissions` requirement the claim asserts — because the
`NotAuthenticated` entry short-circuits first. -/
theorem claim_C6_counterexample :
    strContains "x.Authenticated()" "Authenticated" = true ∧
    extractPermissionsFromMiddleware "AllFeaturesOf(\"admin\")" = ["admin"] ∧
    extractSecurity ["x.NotAuthenticated()", "x.Authenticated()", "AllFeaturesOf(\"admin\")"]
      = [] :=
  ⟨by rfl, by rfl, by rfl⟩

lemma extractSecurityLoop_eq_some {l : List String}
    (hno : ∀ mw ∈ l, strContains mw "NotAuthenticated" = false) :
    ∀ a b, extractSecurityLoop l a b =
      some (a || l.any (fun mw => strContains mw "Authenticated" || strContains mw "IsAuthenticated"),
            b ++ l.flatMap extractPermissionsFromMiddleware) := by
  induction l with
  | nil => intro a b; simp [extractSecurityLoop]
  | cons x rest ih =>
    intro a b
    have hx := hno x (List.mem_cons_self x rest)
    have ihx := ih (fun mw hmw => hno mw (List.mem_cons_of_mem x hmw))
    simp only [extractSecurityLoop, hx, Bool.false_eq_true, if_false]
    rw [ihx]
    simp [List.any_cons, Bool.or_assoc, List.flatMap_cons, List.append_assoc]

/-- Claim C6, amended: provided no entry of the chain contains the
`NotAuthenticated` marker, a chain containing an authentication marker
derives exactly one scoped `permissions` requirement carrying all scopes the
permission calls contribute when there is at least one such scope, and
exactly one bare `bearerAuth` requirement when there is none. -/
theorem claim_C6_scope_escalation (middleware : List String)
    (hno : ∀ mw ∈ middleware, strContains mw "NotAuthenticated" = false)
    (hauth : middleware.any
      (fun mw => strContains mw "Authenticated" || strContains mw "IsAuthenticated") = true) :
    (middleware.flatMap extractPermissionsFromMiddleware ≠ [] →
       extractSecurity middleware =
         [{ name := "permissions",
            scopes := middleware.flatMap extractPermissionsFromMiddleware }]) ∧
    (middleware.flatMap extractPermissionsFromMiddleware = [] →
       extractSecurity middleware = [{ name := "bearerAuth", scopes := [] }]) := by
  unfold extractSecurity
  rw [extractSecurityLoop_eq_some hno false []]
  constructor
  · intro hs
    simp [hauth, hs]
  · intro hs
    simp [hauth, hs]

/-- Claim C6, amended, witness: both branches at concrete chains. -/
theorem claim_C6_scope_escalation_witness :
    extractSecurity ["x.IsAuthenticated.Authenticated()", "AllFeaturesOf(\"admin\")"]
      = [{ name := "permissions", scopes := ["admin"] }] ∧
    extractSecurity ["x.IsAuthenticated.Authenticated()"]
      = [{ name := "bearerAuth", scopes := [] }] := by
  constructor
  · have h := (claim_C6_scope_escalation
      ["x.IsAuthenticated.Authenticated()", "AllFeaturesOf(\"admin\")"]
      (by decide) (by rfl)).1 (by decide)
    exact h.trans (by rfl)
  · exact (claim_C6_scope_escalation ["x.IsAuthenticated.Authenticated()"]
      (by decide) (by rfl)).2 (by rfl)

/-! ## Claim C3 -/

lemma exprListCallsPre_idents (names : List String) :
    exprListCallsPre (names.map .ident) = [] := by
  induction names with
  | nil => rfl
  | cons n rest ih => simp [exprListCallsPre, exprCallsPre, ih]

lemma collectMiddleware_idents (ctx : ParseContext) (names : List String)
    (h : ∀ n ∈ names, n ≠ "" ∧ lookupStr n ctx.varBindings = none) :
    collectMiddleware ctx (names.map .ident) = names := by
  induction names with
  | nil => rfl
  | cons n rest ih =>
    obtain ⟨hn, hl⟩ := h n (List.mem_cons_self n rest)
    have ihr := ih (fun m hm => h m (List.mem_cons_of_mem n hm))
    have hex : extractEnhancedMiddlewareName ctx (.ident n) = n := by
      simp [extractEnhancedMiddlewareName, hl]
    simp only [collectMiddleware, List.map_cons, List.filterMap_cons, hex, ne_eq, hn,
      not_false_iff, if_true] at ihr ⊢
    exact congrArg (List.cons n) ihr

lemma splitHandler_append_handler (l : List GoExpr) (a : GoExpr)
    (h : extractHandlerName a ≠ "") :
    splitHandler (l ++ [a]) = some (l, extractHandlerName a) := by
  induction l with
  | nil => simp [splitHandler, h]
  | cons x rest ih => simp [splitHandler, ih]

lemma parseHTTPMethodCall_group (ctx : ParseContext) (x : GoExpr) (args : List GoExpr) :
    parseHTTPMethodCall ctx (.callE (.selectorE x "Group") args) = none := by
  simp [parseHTTPMethodCall, isHTTPMethod]

/-- The nested-group program of the claim: `a := root.Group("/v1", ma...)`,
`b := a.Group("/users", mb...)`, `b.Get("/:id", mw..., handler)`, where the
middleware arguments are identifiers with the given names. -/
def c3stmts (ma mb mw : List String) (handlerName : String) : List GoStmt :=
  [.assignS true [.ident "a"]
     [.callE (.selectorE (.ident "root") "Group")
       (.basicLit .stringL "\"/v1\"" :: ma.map .ident)],
   .assignS true [.ident "b"]
     [.callE (.selectorE (.ident "a") "Group")
       (.basicLit .stringL "\"/users\"" :: mb.map .ident)],
   .exprS (.callE (.selectorE (.ident "b") "Get")
     (.basicLit .stringL "\"/:id\"" :: (mw.map .ident ++ [.ident handlerName])))]

lemma exprListCallsPre_append (l1 l2 : List GoExpr) :
    exprListCallsPre (l1 ++ l2) = exprListCallsPre l1 ++ exprListCallsPre l2 := by
  induction l1 with
  | nil => rfl
  | cons e rest ih => simp [exprListCallsPre, ih]

/-- Claim C3: for nested groups `a = root.Group("/v1")`,
`b = a.Group("/users")` and endpoint `b.Get("/:id", mw, handler)`, the
extracted endpoint has full path `/v1/users/:id` — rendered `/v1/users/{id}`
by the document's path normalization — and its middleware list is exactly
`a`'s group-call middleware, then `b`'s, then the endpoint call's own, in
ancestor-to-specific order (`root` is not a tracked group in this scenario,
so its group call contributes nothing).  The name hypotheses keep the
middleware identifiers nonempty and distinct from the group variables. -/
theorem claim_C3_group_inheritance (ma mb mw : List String) (handlerName : String)
    (hma : ∀ n ∈ ma, n ≠ "")
    (hmb : ∀ n ∈ mb, n ≠ "" ∧ n ≠ "a")
    (hmw : ∀ n ∈ mw, n ≠ "" ∧ n ≠ "a" ∧ n ≠ "b")
    (hh : handlerName ≠ "") :
    walkFile "ms" (c3stmts ma mb mw handlerName) =
      [{ path := "/v1/users/:id", method := "Get", handler := handlerName,
         msName := "ms", middleware := ma ++ mb ++ mw }] ∧
    OpenAPISpec.normalizePath "/v1/users/:id" = "/v1/users/\x7bid\x7d" := by
  refine ⟨?_, rfl⟩
  set ctx0 : ParseContext :=
    { groupPaths := [], groupMiddleware := [], varBindings := [], msName := "ms" } with hctx0
  set ctx1 : ParseContext :=
    { groupPaths := [("a", "/v1")], groupMiddleware := [("a", ma)],
      varBindings := [("a", "root.Group")], msName := "ms" } with hctx1
  set ctx2 : ParseContext :=
    { groupPaths := [("a", "/v1"), ("b", "/v1/users")],
      groupMiddleware := [("a", ma), ("b", ma ++ mb)],
      varBindings := [("a", "root.Group"), ("b", "a.Group")], msName := "ms" } with hctx2
  have hcol1 : collectMiddleware ctx0 (ma.map .ident) = ma :=
    collectMiddleware_idents ctx0 ma (fun n hn => ⟨hma n hn, rfl⟩)
  have hcol2 : collectMiddleware ctx1 (mb.map .ident) = mb :=
    collectMiddleware_idents ctx1 mb (fun n hn =>
      ⟨(hmb n hn).1, by
        rw [hctx1]
        simp [lookupStr, Ne.symm (hmb n hn).2]⟩)
  have hcol3 : collectMiddleware ctx2 (mw.map .ident) = mw :=
    collectMiddleware_idents ctx2 mw (fun n hn =>
      ⟨(hmw n hn).1, by
        rw [hctx2]
        simp [lookupStr, Ne.symm (hmw n hn).2.1, Ne.symm (hmw n hn).2.2]⟩)
  have hand1 : handleAssignment ctx0 [.ident "a"]
      [.callE (.selectorE (.ident "root") "Group")
        (.basicLit .stringL "\"/v1\"" :: ma.map .ident)] = ctx1 := by
    simp only [handleAssignment]
    rw [hcol1]
    rfl
  have hand2 : handleAssignment ctx1 [.ident "b"]
      [.callE (.selectorE (.ident "a") "Group")
        (.basicLit .stringL "\"/users\"" :: mb.map .ident)] = ctx2 := by
    simp only [handleAssignment]
    rw [hcol2]
    rfl
  have hcalls1 : ∀ ctx : ParseContext,
      (stmtCallsPre (.assignS true [.ident "a"]
        [.callE (.selectorE (.ident "root") "Group")
          (.basicLit .stringL "\"/v1\"" :: ma.map .ident)])).filterMap
        (parseHTTPMethodCall ctx) = [] := by
    intro ctx
    simp [stmtCallsPre, exprListCallsPre, exprCallsPre, exprListCallsPre_idents,
      parseHTTPMethodCall_group]
  have hcalls2 : ∀ ctx : ParseContext,
      (stmtCallsPre (.assignS true [.ident "b"]
        [.callE (.selectorE (.ident "a") "Group")
          (.basicLit .stringL "\"/users\"" :: mb.map .ident)])).filterMap
        (parseHTTPMethodCall ctx) = [] := by
    intro ctx
    simp [stmtCallsPre, exprListCallsPre, exprCallsPre, exprListCallsPre_idents,
      parseHTTPMethodCall_group]
  have hsplit : splitHandler (mw.map .ident ++ [.ident handlerName]) =
      some (mw.map .ident, handlerName) :=
    splitHandler_append_handler (mw.map .ident) (.ident handlerName) hh
  have hparse : parseHTTPMethodCall ctx2
      (.callE (.selectorE (.ident "b") "Get")
        (.basicLit .stringL "\"/:id\"" :: (mw.map .ident ++ [.ident handlerName]))) =
      some { path := "/v1/users/:id", method := "Get", handler := handlerName,
             msName := "ms", middleware := (ma ++ mb) ++ mw } := by
    have hlen : ¬((GoExpr.basicLit .stringL "\"/:id\"" ::
        (mw.map .ident ++ [.ident handlerName])).length < 2) := by
      simp
    simp only [parseHTTPMethodCall, hlen]
    rw [List.drop_one]
    simp only [List.tail_cons, hsplit]
    rw [hcol3]
    simp [hctx2, lookupStr, extractStringLiteral, goUnquote, normalizePath,
      trimSuffixStr, hasSuffixStr, hasPrefixStr, isPrefixL, isHTTPMethod]
  have hcalls3 :
      (stmtCallsPre (.exprS (.callE (.selectorE (.ident "b") "Get")
        (.basicLit .stringL "\"/:id\"" :: (mw.map .ident ++ [.ident handlerName]))))).filterMap
        (parseHTTPMethodCall ctx2) =
      [{ path := "/v1/users/:id", method := "Get", handler := handlerName,
         msName := "ms", middleware := (ma ++ mb) ++ mw }] := by
    simp only [stmtCallsPre, exprCallsPre, exprListCallsPre, exprListCallsPre_append,
      exprListCallsPre_idents]
    simp [List.filterMap_cons, hparse]
  show (walkStmts ctx0 _).2 = _
  simp only [c3stmts, walkStmts, walkStmt]
  rw [hand1, hcalls1, hand2, hcalls2, hcalls3]
  simp [List.append_assoc]


/-- Claim C3, witness at concrete middleware names. -/
theorem claim_C3_witness :
    walkFile "ms" (c3stmts ["rootMW"] ["authMW"] ["epMW"] "CreateOrder") =
      [{ path := "/v1/users/:id", method := "Get", handler := "CreateOrder",
         msName := "ms", middleware := ["rootMW", "authMW", "epMW"] }] ∧
    OpenAPISpec.normalizePath "/v1/users/:id" = "/v1/users/\x7bid\x7d" :=
  claim_C3_group_inheritance ["rootMW"] ["authMW"] ["epMW"] "CreateOrder"
    (by decide) (by decide) (by decide) (by decide)

/-! ## Claim C9 -/

lemma lookupStr_foldl_insert_of_not_mem {α β : Type} (g : String × α → β)
    (l : List (String × α)) (init : List (String × β)) (k : String)
    (h : k ∉ mapKeys l) :
    lookupStr k (l.foldl (fun acc cr => mapInsert acc cr.1 (g cr)) init) =
      lookupStr k init := by
  induction l generalizing init with
  | nil => rfl
  | cons cr rest ih =>
    simp only [mapKeys, List.map_cons, List.mem_cons] at h
    push_neg at h
    rw [List.foldl_cons, ih _ (by simpa [mapKeys] using h.2),
        lookupStr_mapInsert_ne _ _ _ _ h.1]

lemma lookupStr_foldl_insert_of_mem {α β : Type} (g : String × α → β)
    (l : List (String × α)) (init : List (String × β)) (k : String) (v : α)
    (hnodup : (mapKeys l).Nodup) (hmem : (k, v) ∈ l) :
    lookupStr k (l.foldl (fun acc cr => mapInsert acc cr.1 (g cr)) init) =
      some (g (k, v)) := by
  induction l generalizing init with
  | nil => cases hmem
  | cons cr rest ih =>
    simp only [mapKeys, List.map_cons, List.nodup_cons] at hnodup
    rcases List.mem_cons.mp hmem with h | h
    · subst h
      rw [List.foldl_cons,
          lookupStr_foldl_insert_of_not_mem _ _ _ _ hnodup.1,
          lookupStr_mapInsert_self]
    · rw [List.foldl_cons]
      exact ih _ hnodup.2 h

lemma hasPrefixStr_two_not_45 {code : String} (h : hasPrefixStr code "2" = true) :
    hasPrefixStr code "4" = false ∧ hasPrefixStr code "5" = false := by
  unfold hasPrefixStr at h ⊢
  rw [show ("2" : String).data = ['2'] from rfl] at h
  obtain ⟨t, ht⟩ := isPrefixL_single.mp h
  rw [show ("4" : String).data = ['4'] from rfl, show ("5" : String).data = ['5'] from rfl, ht]
  constructor <;> simp [isPrefixL]

/-- Claim C9: in the assembled operation, a response whose status code starts
with `2` (200 in particular) and carries schema `X` is serialized with its
content schema the envelope object with single property `data` of schema `X`;
a response whose status code starts with `4` or `5` (400 in particular) is
serialized with its schema unwrapped. -/
theorem claim_C9_response_wrapping (endpoint : EndpointSpec) (code : String)
    (resp : ResponseSpec)
    (hnodup : (mapKeys endpoint.responses).Nodup)
    (hmem : (code, resp) ∈ endpoint.responses)
    (hct : resp.contentType ≠ "") :
    lookupStr code (createOperation endpoint).responses =
      some { description := resp.description,
             content := [(resp.contentType,
               { schema := some (wrapResponseSchema resp.schema code) })] } ∧
    (hasPrefixStr code "2" = true →
       wrapResponseSchema resp.schema code =
         .mk "object" "" "" "" [("data", resp.schema)] [] none [] none) ∧
    ((hasPrefixStr code "4" = true ∨ hasPrefixStr code "5" = true) →
       wrapResponseSchema resp.schema code = resp.schema) := by
  refine ⟨?_, ?_, ?_⟩
  · have hbase : lookupStr code
        (endpoint.responses.foldl (fun acc cr => mapInsert acc cr.1 (responseRefOf cr)) []) =
        some (responseRefOf (code, resp)) :=
      lookupStr_foldl_insert_of_mem _ _ _ _ _ hnodup hmem
    have hval : responseRefOf (code, resp) =
        { description := resp.description,
          content := [(resp.contentType,
            { schema := some (wrapResponseSchema resp.schema code) })] } := by
      simp [responseRefOf, hct]
    simp only [createOperation]
    by_cases h4 : (lookupStr "400"
        (endpoint.responses.foldl (fun acc cr => mapInsert acc cr.1 (responseRefOf cr)) [])).isNone
    · have hcode : ¬(code = "400") := by
        intro hc
        subst hc
        rw [hbase] at h4
        simp at h4
      simp only [h4, if_true]
      by_cases hsec : !endpoint.security.isEmpty
      · simp only [hsec, if_true]
        rw [lookupStr_mapInsert_ne _ _ _ _ hcode, hbase, hval]
      · simp only [hsec, Bool.false_eq_true, if_false]
        rw [lookupStr_mapInsert_ne _ _ _ _ hcode, hbase, hval]
    · simp only [h4, Bool.false_eq_true, if_false]
      by_cases hsec : !endpoint.security.isEmpty
      · simp only [hsec, if_true]
        rw [hbase, hval]
      · simp only [hsec, Bool.false_eq_true, if_false]
        rw [hbase, hval]
  · intro h2
    obtain ⟨h45a, h45b⟩ := hasPrefixStr_two_not_45 h2
    simp [wrapResponseSchema, h45a, h45b]
  · intro h45
    rcases h45 with h | h <;> simp [wrapResponseSchema, h]

/-- The error-shaped schema of the witness endpoint's 400 response. -/
def errSchemaC9 : SchemaSpec :=
  .mk "object" "" "" "" [("error", typeSchema "string")] [] none [] none

/-- A concrete endpoint with a 200 and a 400 response for the C9 witness. -/
def c9endpoint : EndpointSpec :=
  { path := "/x", method := "GET", handler := "H", msName := "ms", middleware := [],
    summary := "", description := "", tags := [], parameters := [], requestBody := none,
    responses :=
      [("200", { description := "ok", contentType := "application/json",
                 schema := refSchema "X" }),
       ("400", { description := "bad", contentType := "application/json",
                 schema := errSchemaC9 })],
    security := [] }

/-- Claim C9, witness: a 200 response is wrapped into a `data` envelope and a
400 response is left unwrapped, on a concrete endpoint. -/
theorem claim_C9_witness :
    (lookupStr "200" (createOperation c9endpoint).responses =
      some { description := "ok",
             content := [("application/json",
               { schema := some (.mk "object" "" "" "" [("data", refSchema "X")] [] none [] none) })] }) ∧
    (lookupStr "400" (createOperation c9endpoint).responses =
      some { description := "bad",
             content := [("application/json", { schema := some errSchemaC9 })] }) := by
  constructor
  · have h := claim_C9_response_wrapping c9endpoint "200"
      { description := "ok", contentType := "application/json", schema := refSchema "X" }
      (by decide) (by simp [c9endpoint]) (by decide)
    rw [h.1, h.2.1 (by rfl)]
  · have h := claim_C9_response_wrapping c9endpoint "400"
      { description := "bad", contentType := "application/json", schema := errSchemaC9 }
      (by decide) (by simp [c9endpoint]) (by decide)
    rw [h.1, h.2.2 (Or.inl (by rfl))]

/-! ## Claim C2 -/

/-- An analyzer context whose function table does not contain the handler. -/
def c2ctx : AnalyzerContext :=
  { msName := "ms_orders", functions := [], businessLayerRegistry := none,
    controllerFields := [] }

/-- A raw endpoint whose handler name is absent from the function table. -/
def c2basic : EndpointInfo :=
  { path := "/orders/:id", method := "get", handler := "GetOrder",
    msName := "ms_orders", middleware := ["x.IsAuthenticated.Authenticated()"] }

/-- Claim C2, counterexample: when the handler is not found, the returned
spec has an empty response map — in particular no default 200 generic-object
response, contrary to the claim — because `enhanceEndpoint` returns before
the default-response synthesis. -/
theorem claim_C2_counterexample :
    lookupStr "GetOrder" c2ctx.functions = none ∧
    (enhanceEndpoint c2ctx c2basic).responses = [] ∧
    lookupStr "200" (enhanceEndpoint c2ctx c2basic).responses = none :=
  ⟨rfl, rfl, rfl⟩

/-- Claim C2, amended: when the handler name is absent from the directory's
function table, the Endpoint Enhancer returns the spec carrying the
endpoint's path, upper-cased method, handler, microservice and middleware
fields, the path-derived tags and the middleware-derived security, with empty
parameters, no request body and an empty response map (no default 200
response is added on this path), and it does not fail the run. -/
theorem claim_C2_missing_handler_degrades (ac : AnalyzerContext) (basic : EndpointInfo)
    (h : lookupStr basic.handler ac.functions = none) :
    enhanceEndpoint ac basic =
      { path := basic.path, method := toUpperStr basic.method, handler := basic.handler,
        msName := basic.msName, middleware := basic.middleware, summary := "",
        description := "", tags := assignTags ac basic.path, parameters := [],
        requestBody := none, responses := [],
        security := extractSecurity basic.middleware } := by
  simp [enhanceEndpoint, h]

/-- Claim C2, amended, witness. -/
theorem claim_C2_witness :
    lookupStr "GetOrder" c2ctx.functions = none ∧
    enhanceEndpoint c2ctx c2basic =
      { path := "/orders/:id", method := "GET", handler := "GetOrder",
        msName := "ms_orders", middleware := ["x.IsAuthenticated.Authenticated()"],
        summary := "", description := "", tags := ["Orders"], parameters := [],
        requestBody := none, responses := [],
        security := [{ name := "bearerAuth", scopes := [] }] } :=
  ⟨rfl, (claim_C2_missing_handler_degrades c2ctx c2basic rfl).trans (by rfl)⟩

/-! ## Resolver state lemmas

`stepRel st st'` records what every resolver step preserves: the processed
set only grows, schema-table keys are never removed, and key distinctness is
preserved (`mapInsert` replaces in place). -/

def stepRel (st st' : ResolverState) : Prop :=
  (∀ n, n ∈ st.processed → n ∈ st'.processed) ∧
  (∀ k, (lookupStr k st.schemas).isSome → (lookupStr k st'.schemas).isSome) ∧
  ((mapKeys st.schemas).Nodup → (mapKeys st'.schemas).Nodup)

lemma stepRel_refl (st : ResolverState) : stepRel st st :=
  ⟨fun _ h => h, fun _ h => h, fun h => h⟩

lemma stepRel_trans {s1 s2 s3 : ResolverState} (h1 : stepRel s1 s2) (h2 : stepRel s2 s3) :
    stepRel s1 s3 :=
  ⟨fun n h => h2.1 n (h1.1 n h), fun k h => h2.2.1 k (h1.2.1 k h),
   fun h => h2.2.2 (h1.2.2 h)⟩

lemma lookupStr_mapInsert_isSome {α : Type} (m : List (String × α)) (k k' : String) (v : α)
    (h : (lookupStr k' m).isSome) : (lookupStr k' (mapInsert m k v)).isSome := by
  by_cases hk : k' = k
  · subst hk; rw [lookupStr_mapInsert_self]; rfl
  · rwa [lookupStr_mapInsert_ne _ _ _ _ hk]

lemma mapKeys_mapInsert {α : Type} (m : List (String × α)) (k : String) (v : α) :
    mapKeys (mapInsert m k v) =
      if k ∈ mapKeys m then mapKeys m else mapKeys m ++ [k] := by
  induction m with
  | nil => simp [mapInsert, mapKeys]
  | cons kv rest ih =>
    obtain ⟨k0, v0⟩ := kv
    by_cases h0 : k0 = k
    · subst h0
      simp [mapInsert, mapKeys]
    · have h0' : ¬k = k0 := fun hh => h0 hh.symm
      simp only [mapInsert, h0, if_false, mapKeys, List.map_cons] at ih ⊢
      rw [ih]
      by_cases hmem : k ∈ List.map Prod.fst rest
      · simp [List.mem_cons, hmem, h0']
      · simp [List.mem_cons, hmem, h0']

lemma mapKeys_mapInsert_nodup {α : Type} (m : List (String × α)) (k : String) (v : α)
    (h : (mapKeys m).Nodup) : (mapKeys (mapInsert m k v)).Nodup := by
  rw [mapKeys_mapInsert]
  by_cases hmem : k ∈ mapKeys m
  · simpa [hmem] using h
  · simp only [hmem, if_false]
    rw [List.nodup_append]
    exact ⟨h, List.nodup_singleton k,
      by simpa [List.disjoint_singleton] using hmem⟩

lemma stepRel_mapInsert (st : ResolverState) (k : String) (v : SchemaSpec) :
    stepRel st { st with schemas := mapInsert st.schemas k v } :=
  ⟨fun _ h => h, fun _ h => lookupStr_mapInsert_isSome _ _ _ _ h,
   fun h => mapKeys_mapInsert_nodup _ _ _ h⟩

/-- The property of the `resolve` callback all helper lemmas assume. -/
def resolveStep (resolve : ResolveFn) : Prop :=
  ∀ st n r, resolve st n = some r → stepRel st r.2

theorem parseFieldTypeW_stepRel {resolve : ResolveFn} (hres : resolveStep resolve) :
    ∀ (t : GoExpr) (st : ResolverState) (r : SchemaSpec × ResolverState),
      parseFieldTypeW resolve st t = some r → stepRel st r.2
  | .ident name, st, r, h => by
    simp only [parseFieldTypeW] at h
    by_cases hb : (resolveBuiltInType name).type ≠ ""
    · rw [if_pos hb] at h
      cases h
      exact stepRel_refl st
    · rw [if_neg hb] at h
      exact hres st name r h
  | .selectorE (.ident pkg) sel, st, r, h => by
    simp only [parseFieldTypeW] at h
    by_cases hb : (resolveBuiltInType (pkg ++ "." ++ sel)).type ≠ ""
    · rw [if_pos hb] at h
      cases h
      exact stepRel_refl st
    · rw [if_neg hb] at h
      exact hres st _ r h
  | .arrayTypeE elt, st, r, h => by
    simp only [parseFieldTypeW] at h
    cases helt : parseFieldTypeW resolve st elt with
    | none => rw [helt] at h; cases h
    | some r' =>
      rw [helt] at h
      cases h
      exact parseFieldTypeW_stepRel hres elt st r' helt
  | .mapTypeE key value, st, r, h => by
    simp only [parseFieldTypeW] at h
    cases hv : parseFieldTypeW resolve st value with
    | none => rw [hv] at h; cases h
    | some r' =>
      rw [hv] at h
      cases h
      exact parseFieldTypeW_stepRel hres value st r' hv
  | .starE x, st, r, h => by
    simp only [parseFieldTypeW] at h
    exact parseFieldTypeW_stepRel hres x st r h
  | .basicLit _ _, st, r, h => (Option.some.inj h) ▸ stepRel_refl st
  | .callE _ _, st, r, h => (Option.some.inj h) ▸ stepRel_refl st
  | .funcLit, st, r, h => (Option.some.inj h) ▸ stepRel_refl st
  | .addrOf _, st, r, h => (Option.some.inj h) ▸ stepRel_refl st
  | .compositeLit _, st, r, h => (Option.some.inj h) ▸ stepRel_refl st
  | .otherE, st, r, h => (Option.some.inj h) ▸ stepRel_refl st
  | .selectorE (.basicLit _ _) _, st, r, h => (Option.some.inj h) ▸ stepRel_refl st
  | .selectorE (.callE _ _) _, st, r, h => (Option.some.inj h) ▸ stepRel_refl st
  | .selectorE (.selectorE _ _) _, st, r, h => (Option.some.inj h) ▸ stepRel_refl st
  | .selectorE .funcLit _, st, r, h => (Option.some.inj h) ▸ stepRel_refl st
  | .selectorE (.addrOf _) _, st, r, h => (Option.some.inj h) ▸ stepRel_refl st
  | .selectorE (.compositeLit _) _, st, r, h => (Option.some.inj h) ▸ stepRel_refl st
  | .selectorE (.starE _) _, st, r, h => (Option.some.inj h) ▸ stepRel_refl st
  | .selectorE (.arrayTypeE _) _, st, r, h => (Option.some.inj h) ▸ stepRel_refl st
  | .selectorE (.mapTypeE _ _) _, st, r, h => (Option.some.inj h) ▸ stepRel_refl st
  | .selectorE .otherE _, st, r, h => (Option.some.inj h) ▸ stepRel_refl st

lemma parseFieldW_stepRel {resolve : ResolveFn} (hres : resolveStep resolve)
    (st : ResolverState) (f : GoField) (schema : SchemaSpec)
    (r : SchemaSpec × ResolverState) (h : parseFieldW resolve st f schema = some r) :
    stepRel st r.2 := by
  simp only [parseFieldW] at h
  by_cases hskip : (if f.jsonTag ≠ "" then (goSplit f.jsonTag ",").headD "" else "") = "" ∨
      (if f.jsonTag ≠ "" then (goSplit f.jsonTag ",").headD "" else "") = "-"
  · rw [if_pos hskip] at h
    cases h
    exact stepRel_refl st
  · rw [if_neg hskip] at h
    cases hft : parseFieldTypeW resolve st f.fieldType with
    | none => rw [hft] at h; cases h
    | some r' =>
      rw [hft] at h
      have hstep := parseFieldTypeW_stepRel hres f.fieldType st r' hft
      cases r' with
      | mk fs st' =>
        cases schema with
        | mk t fo d rf props req i e a =>
          simp only at h
          cases h
          exact hstep

lemma parseFieldsW_stepRel {resolve : ResolveFn} (hres : resolveStep resolve) :
    ∀ (fields : List GoField) (st : ResolverState) (schema : SchemaSpec)
      (r : SchemaSpec × ResolverState),
      parseFieldsW resolve st fields schema = some r → stepRel st r.2
  | [], st, schema, r, h => by
    cases h
    exact stepRel_refl st
  | f :: rest, st, schema, r, h => by
    simp only [parseFieldsW] at h
    cases hf : parseFieldW resolve st f schema with
    | none => rw [hf] at h; cases h
    | some r' =>
      rw [hf] at h
      exact stepRel_trans (parseFieldW_stepRel hres st f schema r' hf)
        (parseFieldsW_stepRel hres rest r'.2 r'.1 r h)

lemma parseStructW_stepRel {resolve : ResolveFn} (hres : resolveStep resolve)
    (st : ResolverState) (doc : List String) (fields : List GoField)
    (r : SchemaSpec × ResolverState) (h : parseStructW resolve st doc fields = some r) :
    stepRel st r.2 :=
  parseFieldsW_stepRel hres fields st _ r h

lemma parseEntryTypeW_stepRel {resolve : ResolveFn} (hres : resolveStep resolve)
    (st : ResolverState) (e : GoTypeEntry) (r : Option SchemaSpec × ResolverState)
    (h : parseEntryTypeW resolve st e = some r) : stepRel st r.2 := by
  cases e with
  | mk name decl fileConsts =>
    cases decl with
    | structDecl doc fields =>
      simp only [parseEntryTypeW] at h
      cases hs : parseStructW resolve st doc fields with
      | none => rw [hs] at h; cases h
      | some r' =>
        rw [hs] at h
        cases h
        exact parseStructW_stepRel hres st doc fields r' hs
    | namedIdent underlying =>
      simp only [parseEntryTypeW] at h
      by_cases he : hasSuffixStr name "Enum" = true
      · simp only [he, if_true] at h
        cases h
        exact stepRel_refl st
      · simp only [he, Bool.false_eq_true, if_false] at h
        cases h
        exact stepRel_refl st
    | namedSelector pkg sel =>
      simp only [parseEntryTypeW] at h
      by_cases he : hasSuffixStr name "Enum" = true
      · simp only [he, if_true] at h
        cases h
        exact stepRel_refl st
      · simp only [he, Bool.false_eq_true, if_false] at h
        cases h
        exact stepRel_refl st
    | otherDecl =>
      cases h
      exact stepRel_refl st

lemma findInEntriesW_stepRel {resolve : ResolveFn} (hres : resolveStep resolve) :
    ∀ (entries : List GoTypeEntry) (st : ResolverState) (structName : String)
      (r : Option SchemaSpec × ResolverState),
      findInEntriesW resolve st entries structName = some r → stepRel st r.2
  | [], st, structName, r, h => by
    cases h
    exact stepRel_refl st
  | e :: rest, st, structName, r, h => by
    simp only [findInEntriesW] at h
    by_cases hn : e.name = structName
    · rw [if_pos hn] at h
      cases hp : parseEntryTypeW resolve st e with
      | none => rw [hp] at h; cases h
      | some r' =>
        rw [hp] at h
        cases r' with
        | mk schemaOpt st' =>
          cases schemaOpt with
          | none =>
            simp only at h
            exact findInEntriesW_stepRel hres rest st structName r h
          | some schema =>
            simp only at h
            cases h
            exact parseEntryTypeW_stepRel hres st e _ hp
    · rw [if_neg hn] at h
      exact findInEntriesW_stepRel hres rest st structName r h

lemma findAndParseTypeW_stepRel {env : List GoTypeEntry} {resolve : ResolveFn}
    (hres : resolveStep resolve) (st : ResolverState) (typeName : String)
    (r : Option SchemaSpec × ResolverState)
    (h : findAndParseTypeW env resolve st typeName = some r) : stepRel st r.2 :=
  findInEntriesW_stepRel hres env st _ r h

lemma resolveType_stepRel (env : List GoTypeEntry) :
    ∀ (fuel : Nat), resolveStep (resolveType env fuel)
  | 0 => by
    intro st n r h
    cases h
  | fuel + 1 => by
    intro st n r h
    simp only [resolveType] at h
    by_cases hb : (resolveBuiltInType n).type ≠ ""
    · rw [if_pos hb] at h
      cases h
      exact stepRel_refl st
    · rw [if_neg hb] at h
      by_cases hp : memStr n st.processed = true
      · rw [if_pos hp] at h
        cases h
        exact stepRel_refl st
      · rw [if_neg hp] at h
        have hpush : stepRel st { st with processed := n :: st.processed } :=
          ⟨fun m hm => List.mem_cons_of_mem n hm, fun _ hh => hh, fun hh => hh⟩
        cases hf : findAndParseTypeW env (resolveType env fuel)
            { st with processed := n :: st.processed } n with
        | none => rw [hf] at h; cases h
        | some r' =>
          rw [hf] at h
          have hstep := findAndParseTypeW_stepRel (resolveType_stepRel env fuel) _ n r' hf
          cases r' with
          | mk schemaOpt st2 =>
            cases schemaOpt with
            | none =>
              simp only at h
              cases h
              exact stepRel_trans hpush hstep
            | some schema =>
              simp only at h
              cases h
              exact stepRel_trans hpush (stepRel_trans hstep (stepRel_mapInsert st2 _ _))

/-! ## Claim C7 -/

/-- Claim C7, counterexample: resolving an unresolvable type name twice does
not yield the identical result — the first call returns the generic object
schema while the second returns a `$ref` (the name was marked processed but
no table entry was recorded). -/
theorem claim_C7_counterexample :
    (resolveType [] 2 emptyResolverState "MissingType").map Prod.fst
      = some objectSchema ∧
    ((resolveType [] 2 emptyResolverState "MissingType").bind
        (fun r => resolveType [] 2 r.2 "MissingType")).map Prod.fst
      = some (refSchema "MissingType") ∧
    objectSchema.ref ≠ (refSchema "MissingType").ref ∧
    ((resolveType [] 2 emptyResolverState "MissingType").map
        (fun r => lookupStr "MissingType" r.2.schemas)) = some none :=
  ⟨rfl, rfl, by decide, rfl⟩

/-- Claim C7, amended: after a first `ResolveType` call on `n` succeeds, a
second call returns the state unchanged (no entry is added or duplicated,
and distinct table keys stay distinct), and returns the identical schema for
built-in names and for names whose declaration was found; only for an
unresolvable name do the two calls differ — generic object first, `$ref`
second. -/
theorem claim_C7_idempotence (env : List GoTypeEntry) (fuel : Nat)
    (st : ResolverState) (n : String) (s1 : SchemaSpec) (st1 : ResolverState)
    (h1 : resolveType env fuel st n = some (s1, st1)) :
    resolveType env fuel st1 n =
      some ((if (resolveBuiltInType n).type ≠ "" then s1 else refSchema (cleanTypeName n)),
            st1) ∧
    (s1 = objectSchema ∨
      (if (resolveBuiltInType n).type ≠ "" then s1 else refSchema (cleanTypeName n)) = s1) ∧
    ((mapKeys st.schemas).Nodup → (mapKeys st1.schemas).Nodup) := by
  cases fuel with
  | zero => cases h1
  | succ f =>
    simp only [resolveType] at h1
    by_cases hb : (resolveBuiltInType n).type ≠ ""
    · rw [if_pos hb] at h1
      cases h1
      refine ⟨?_, Or.inr (by rw [if_pos hb]), fun h => h⟩
      simp only [resolveType]
      rw [if_pos hb, if_pos hb]
    · rw [if_neg hb] at h1
      by_cases hp : memStr n st.processed = true
      · rw [if_pos hp] at h1
        cases h1
        refine ⟨?_, Or.inr (by rw [if_neg hb]), fun h => h⟩
        simp only [resolveType]
        rw [if_neg hb, if_pos hp, if_neg hb]
      · rw [if_neg hp] at h1
        cases hf : findAndParseTypeW env (resolveType env f)
            { st with processed := n :: st.processed } n with
        | none => rw [hf] at h1; cases h1
        | some r' =>
          rw [hf] at h1
          have hstep := findAndParseTypeW_stepRel (resolveType_stepRel env f) _ n r' hf
          have hmem : n ∈ r'.2.processed :=
            hstep.1 n (List.mem_cons_self n st.processed)
          cases r' with
          | mk schemaOpt st2 =>
            cases schemaOpt with
            | none =>
              simp only at h1
              cases h1
              refine ⟨?_, Or.inl rfl, fun h => hstep.2.2 h⟩
              simp only [resolveType]
              rw [if_neg hb, if_pos ((memStr_iff_mem n _).mpr hmem), if_neg hb]
            | some schema =>
              simp only at h1
              cases h1
              have hmem1 : n ∈ ({ st2 with
                  schemas := mapInsert st2.schemas (cleanTypeName n) schema } :
                    ResolverState).processed := hmem
              refine ⟨?_, Or.inr (by rw [if_neg hb]), ?_⟩
              · simp only [resolveType]
                rw [if_neg hb, if_pos ((memStr_iff_mem n _).mpr hmem1), if_neg hb]
              · intro h
                exact mapKeys_mapInsert_nodup _ _ _ (hstep.2.2 h)

/-- A one-entry environment declaring `type Thing struct { Name string }`
with json tag `name`. -/
def c7env : List GoTypeEntry :=
  [{ name := "Thing",
     decl := .structDecl []
       [{ jsonTag := "name", validateTag := "", doc := [], fieldType := .ident "string" }],
     fileConsts := [] }]

/-- The resolver state after resolving `Thing` once in `c7env`. -/
def c7state : ResolverState :=
  { schemas := [("Thing",
      .mk "object" "" "" "" [("name", typeSchema "string")] ["name"] none [] none)],
    processed := ["Thing"] }

/-- Claim C7, amended, witness: for a resolvable type the two calls agree on
the same `$ref` and leave one table entry. -/
theorem claim_C7_witness :
    (resolveType c7env 3 emptyResolverState "Thing").map Prod.fst
      = some (refSchema "Thing") ∧
    ((resolveType c7env 3 emptyResolverState "Thing").bind
        (fun r => resolveType c7env 3 r.2 "Thing")).map Prod.fst
      = some (refSchema "Thing") ∧
    ((resolveType c7env 3 emptyResolverState "Thing").bind
        (fun r => resolveType c7env 3 r.2 "Thing")).map
        (fun r => mapKeys r.2.schemas) = some ["Thing"] := by
  have h1 : resolveType c7env 3 emptyResolverState "Thing"
      = some (refSchema "Thing", c7state) := rfl
  have h := claim_C7_idempotence c7env 3 emptyResolverState "Thing"
    (refSchema "Thing") c7state h1
  refine ⟨by rw [h1]; rfl, ?_, ?_⟩
  · rw [h1]
    show (resolveType c7env 3 c7state "Thing").map Prod.fst = some (refSchema "Thing")
    rw [h.1]
    rfl
  · rw [h1]
    show (resolveType c7env 3 c7state "Thing").map (fun r => mapKeys r.2.schemas)
      = some ["Thing"]
    rw [h.1]
    rfl

/-! ## Claim C8: termination of the recursive resolver

The Go recursion terminates because a type name is marked processed before
its fields are descended into, and every nested resolution is on a type name
mentioned in some declaration.  In the fuel embedding this becomes: a fuel
bounded by the number of mentioned type names always suffices. -/

/-- The type names a field type expression can hand to `ResolveType`. -/
def typeRefNames : GoExpr → List String
  | .ident n => [n]
  | .selectorE (.ident pkg) sel => [pkg ++ "." ++ sel]
  | .arrayTypeE elt => typeRefNames elt
  | .mapTypeE _ value => typeRefNames value
  | .starE x => typeRefNames x
  | _ => []

/-- The type names mentioned by one environment entry's struct fields. -/
def entryRefNames (e : GoTypeEntry) : List String :=
  match e.decl with
  | .structDecl _ fields => fields.flatMap (fun f => typeRefNames f.fieldType)
  | _ => []

/-- All type names mentioned anywhere in the environment. -/
def mentionedNames (env : List GoTypeEntry) : List String :=
  env.flatMap entryRefNames

/-- How many of `names` are not yet processed. -/
def countMissing (names processed : List String) : Nat :=
  (names.filter (fun n => !memStr n processed)).length

lemma countMissing_le_length (names processed : List String) :
    countMissing names processed ≤ names.length :=
  List.length_filter_le _ _

lemma countMissing_mono {processed processed' : List String}
    (h : ∀ n, n ∈ processed → n ∈ processed') (names : List String) :
    countMissing names processed' ≤ countMissing names processed := by
  induction names with
  | nil => exact Nat.le_refl _
  | cons x rest ih =>
    simp only [countMissing, List.filter_cons] at ih ⊢
    by_cases hx : memStr x processed = true
    · have hx' : memStr x processed' = true :=
        (memStr_iff_mem x _).mpr (h x ((memStr_iff_mem x _).mp hx))
      simp only [hx, hx', Bool.not_true, Bool.false_eq_true, if_false]
      exact ih
    · by_cases hx' : memStr x processed' = true
      · simp only [hx, hx', Bool.not_true, Bool.not_false, Bool.false_eq_true, if_false,
          if_true, List.length_cons]
        exact Nat.le_succ_of_le ih
      · simp only [hx, hx', Bool.not_false, if_true, List.length_cons]
        exact Nat.succ_le_succ ih

lemma countMissing_cons_lt {names processed : List String} {m : String}
    (hmem : m ∈ names) (hnp : memStr m processed = false) :
    countMissing names (m :: processed) < countMissing names processed := by
  induction names with
  | nil => cases hmem
  | cons x rest ih =>
    rcases List.mem_cons.mp hmem with hx | hx
    · have h1 : memStr x (m :: processed) = true := by
        simp [memStr, hx]
      have h2 : memStr x processed = false := hx ▸ hnp
      have hle : countMissing rest (m :: processed) ≤ countMissing rest processed :=
        countMissing_mono (fun n hn => List.mem_cons_of_mem m hn) rest
      simp only [countMissing, List.filter_cons, h1, h2, Bool.not_true, Bool.not_false,
        Bool.false_eq_true, if_false, if_true, List.length_cons]
      exact Nat.lt_succ_of_le hle
    · by_cases hxp : memStr x processed = true
      · have hxm : memStr x (m :: processed) = true := by
          simp only [memStr] at hxp ⊢
          rw [hxp]
          simp
        simp only [countMissing, List.filter_cons, hxp, hxm, Bool.not_true,
          Bool.false_eq_true, if_false]
        exact ih hx
      · have hxpf : memStr x processed = false := by
          simpa using hxp
        by_cases hmx : m = x
        · have hxm : memStr x (m :: processed) = true := by
            simp [memStr, hmx]
          simp only [countMissing, List.filter_cons, hxpf, hxm, Bool.not_true,
            Bool.not_false, Bool.false_eq_true, if_false, if_true, List.length_cons]
          exact Nat.lt_succ_of_lt (ih hx)
        · have hxm : memStr x (m :: processed) = false := by
            simp only [memStr, hxpf]
            simp [hmx]
          simp only [countMissing, List.filter_cons, hxpf, hxm, Bool.not_true,
            Bool.not_false, Bool.false_eq_true, if_false, if_true, List.length_cons]
          exact Nat.succ_lt_succ (ih hx)

/-- The budget property the nested `resolve` callback satisfies. -/
def goodResolve (env : List GoTypeEntry) (resolve : ResolveFn) (k : Nat) : Prop :=
  ∀ st m, m ∈ mentionedNames env →
    countMissing (mentionedNames env) st.processed + 1 ≤ k →
    (resolve st m).isSome = true

theorem parseFieldTypeW_isSome {env : List GoTypeEntry} {resolve : ResolveFn} {k : Nat}
    (hgood : goodResolve env resolve k) :
    ∀ (t : GoExpr) (st : ResolverState),
      (∀ m ∈ typeRefNames t, m ∈ mentionedNames env) →
      countMissing (mentionedNames env) st.processed + 1 ≤ k →
      (parseFieldTypeW resolve st t).isSome = true
  | .ident name, st, hrefs, hbudget => by
    simp only [parseFieldTypeW]
    by_cases hb : (resolveBuiltInType name).type ≠ ""
    · rw [if_pos hb]; rfl
    · rw [if_neg hb]
      exact hgood st name (hrefs name (by simp [typeRefNames])) hbudget
  | .selectorE (.ident pkg) sel, st, hrefs, hbudget => by
    simp only [parseFieldTypeW]
    by_cases hb : (resolveBuiltInType (pkg ++ "." ++ sel)).type ≠ ""
    · rw [if_pos hb]; rfl
    · rw [if_neg hb]
      exact hgood st _ (hrefs _ (by simp [typeRefNames])) hbudget
  | .arrayTypeE elt, st, hrefs, hbudget => by
    have hsub := parseFieldTypeW_isSome hgood elt st hrefs hbudget
    simp only [parseFieldTypeW]
    cases heq : parseFieldTypeW resolve st elt with
    | none => rw [heq] at hsub; cases hsub
    | some r' => obtain ⟨a, b⟩ := r'; rfl
  | .mapTypeE key value, st, hrefs, hbudget => by
    have hsub := parseFieldTypeW_isSome hgood value st hrefs hbudget
    simp only [parseFieldTypeW]
    cases heq : parseFieldTypeW resolve st value with
    | none => rw [heq] at hsub; cases hsub
    | some r' => obtain ⟨a, b⟩ := r'; rfl
  | .starE x, st, hrefs, hbudget => by
    simp only [parseFieldTypeW]
    exact parseFieldTypeW_isSome hgood x st hrefs hbudget
  | .basicLit _ _, _, _, _ => rfl
  | .callE _ _, _, _, _ => rfl
  | .funcLit, _, _, _ => rfl
  | .addrOf _, _, _, _ => rfl
  | .compositeLit _, _, _, _ => rfl
  | .otherE, _, _, _ => rfl
  | .selectorE (.basicLit _ _) _, _, _, _ => rfl
  | .selectorE (.callE _ _) _, _, _, _ => rfl
  | .selectorE (.selectorE _ _) _, _, _, _ => rfl
  | .selectorE .funcLit _, _, _, _ => rfl
  | .selectorE (.addrOf _) _, _, _, _ => rfl
  | .selectorE (.compositeLit _) _, _, _, _ => rfl
  | .selectorE (.starE _) _, _, _, _ => rfl
  | .selectorE (.arrayTypeE _) _, _, _, _ => rfl
  | .selectorE (.mapTypeE _ _) _, _, _, _ => rfl
  | .selectorE .otherE _, _, _, _ => rfl

lemma parseFieldW_isSome {env : List GoTypeEntry} {resolve : ResolveFn} {k : Nat}
    (hgood : goodResolve env resolve k) (st : ResolverState) (f : GoField)
    (schema : SchemaSpec)
    (hrefs : ∀ m ∈ typeRefNames f.fieldType, m ∈ mentionedNames env)
    (hbudget : countMissing (mentionedNames env) st.processed + 1 ≤ k) :
    (parseFieldW resolve st f schema).isSome = true := by
  simp only [parseFieldW]
  by_cases hskip : (if f.jsonTag ≠ "" then (goSplit f.jsonTag ",").headD "" else "") = "" ∨
      (if f.jsonTag ≠ "" then (goSplit f.jsonTag ",").headD "" else "") = "-"
  · rw [if_pos hskip]; rfl
  · rw [if_neg hskip]
    have hsub := parseFieldTypeW_isSome hgood f.fieldType st hrefs hbudget
    cases heq : parseFieldTypeW resolve st f.fieldType with
    | none => rw [heq] at hsub; cases hsub
    | some r' =>
      cases r' with
      | mk fs st' =>
        cases schema with
        | mk t fo d rf props req i e a => rfl

lemma parseFieldsW_isSome {env : List GoTypeEntry} {resolve : ResolveFn} {k : Nat}
    (hgood : goodResolve env resolve k) (hstep : resolveStep resolve) :
    ∀ (fields : List GoField) (st : ResolverState) (schema : SchemaSpec),
      (∀ f ∈ fields, ∀ m ∈ typeRefNames f.fieldType, m ∈ mentionedNames env) →
      countMissing (mentionedNames env) st.processed + 1 ≤ k →
      (parseFieldsW resolve st fields schema).isSome = true
  | [], st, schema, _, _ => rfl
  | f :: rest, st, schema, hrefs, hbudget => by
    have hf := parseFieldW_isSome hgood st f schema
      (hrefs f (List.mem_cons_self f rest)) hbudget
    simp only [parseFieldsW]
    cases heq : parseFieldW resolve st f schema with
    | none => rw [heq] at hf; cases hf
    | some r' =>
      have hrel := parseFieldW_stepRel hstep st f schema r' heq
      have hbudget' : countMissing (mentionedNames env) r'.2.processed + 1 ≤ k :=
        Nat.le_trans (Nat.add_le_add_right (countMissing_mono hrel.1 _) 1) hbudget
      exact parseFieldsW_isSome hgood hstep rest r'.2 r'.1
        (fun g hg => hrefs g (List.mem_cons_of_mem f hg)) hbudget'

lemma entryRefNames_mentioned {env : List GoTypeEntry} {e : GoTypeEntry}
    (he : e ∈ env) : ∀ m ∈ entryRefNames e, m ∈ mentionedNames env := by
  intro m hm
  exact List.mem_flatMap.mpr ⟨e, he, hm⟩

lemma parseEntryTypeW_isSome {env : List GoTypeEntry} {resolve : ResolveFn} {k : Nat}
    (hgood : goodResolve env resolve k) (hstep : resolveStep resolve)
    (st : ResolverState) (e : GoTypeEntry) (he : e ∈ env)
    (hbudget : countMissing (mentionedNames env) st.processed + 1 ≤ k) :
    (parseEntryTypeW resolve st e).isSome = true := by
  cases e with
  | mk name decl fileConsts =>
    cases decl with
    | structDecl doc fields =>
      simp only [parseEntryTypeW, parseStructW]
      have hrefs : ∀ f ∈ fields, ∀ m ∈ typeRefNames f.fieldType, m ∈ mentionedNames env := by
        intro f hf m hm
        exact entryRefNames_mentioned he m
          (by simpa [entryRefNames] using List.mem_flatMap.mpr ⟨f, hf, hm⟩)
      have hsub := parseFieldsW_isSome hgood hstep fields st
        (.mk "object" "" (goJoin doc " ") "" [] [] none [] none) hrefs hbudget
      cases heq : parseFieldsW resolve st fields
          (.mk "object" "" (goJoin doc " ") "" [] [] none [] none) with
      | none => rw [heq] at hsub; cases hsub
      | some r' => obtain ⟨a, b⟩ := r'; rfl
    | namedIdent underlying =>
      simp only [parseEntryTypeW]
      by_cases hs : hasSuffixStr name "Enum" = true
      · rw [if_pos hs]; rfl
      · rw [if_neg hs]; rfl
    | namedSelector pkg sel =>
      simp only [parseEntryTypeW]
      by_cases hs : hasSuffixStr name "Enum" = true
      · rw [if_pos hs]; rfl
      · rw [if_neg hs]; rfl
    | otherDecl => rfl

lemma findInEntriesW_isSome {env : List GoTypeEntry} {resolve : ResolveFn} {k : Nat}
    (hgood : goodResolve env resolve k) (hstep : resolveStep resolve) :
    ∀ (entries : List GoTypeEntry) (st : ResolverState) (structName : String),
      (∀ e ∈ entries, e ∈ env) →
      countMissing (mentionedNames env) st.processed + 1 ≤ k →
      (findInEntriesW resolve st entries structName).isSome = true
  | [], st, structName, _, _ => rfl
  | e :: rest, st, structName, hsub, hbudget => by
    simp only [findInEntriesW]
    by_cases hn : e.name = structName
    · rw [if_pos hn]
      have hp := parseEntryTypeW_isSome hgood hstep st e
        (hsub e (List.mem_cons_self e rest)) hbudget
      cases heq : parseEntryTypeW resolve st e with
      | none => rw [heq] at hp; cases hp
      | some r' =>
        cases r' with
        | mk schemaOpt st' =>
          cases schemaOpt with
          | none =>
            exact findInEntriesW_isSome hgood hstep rest st structName
              (fun x hx => hsub x (List.mem_cons_of_mem e hx)) hbudget
          | some schema => rfl
    · rw [if_neg hn]
      exact findInEntriesW_isSome hgood hstep rest st structName
        (fun x hx => hsub x (List.mem_cons_of_mem e hx)) hbudget

lemma resolveType_isSome_of_processed (env : List GoTypeEntry) (f : Nat)
    (st : ResolverState) (n : String) (hp : memStr n st.processed = true) :
    (resolveType env (f + 1) st n).isSome = true := by
  simp only [resolveType]
  by_cases hb : (resolveBuiltInType n).type ≠ ""
  · rw [if_pos hb]; rfl
  · rw [if_neg hb, if_pos hp]; rfl

theorem resolveType_adequate (env : List GoTypeEntry) :
    ∀ (fuel : Nat) (st : ResolverState) (n : String),
      countMissing (mentionedNames env) (n :: st.processed) + 2 ≤ fuel →
      (resolveType env fuel st n).isSome = true
  | 0, st, n, h => by omega
  | fuel + 1, st, n, h => by
    simp only [resolveType]
    by_cases hb : (resolveBuiltInType n).type ≠ ""
    · rw [if_pos hb]; rfl
    · rw [if_neg hb]
      by_cases hp : memStr n st.processed = true
      · rw [if_pos hp]; rfl
      · rw [if_neg hp]
        have hgood : goodResolve env (resolveType env fuel) fuel := by
          intro st' m hm hbud
          by_cases hp' : memStr m st'.processed = true
          · cases fuel with
            | zero => omega
            | succ f' => exact resolveType_isSome_of_processed env f' st' m hp'
          · have hlt := countMissing_cons_lt hm (by simpa using hp')
            exact resolveType_adequate env fuel st' m (by omega)
        have hfind : (findAndParseTypeW env (resolveType env fuel)
            { st with processed := n :: st.processed } n).isSome = true := by
          simp only [findAndParseTypeW]
          exact findInEntriesW_isSome hgood (resolveType_stepRel env fuel) env
            { st with processed := n :: st.processed } _ (fun e he => he)
            (by show countMissing (mentionedNames env) (n :: st.processed) + 1 ≤ fuel
                omega)
        cases hf : findAndParseTypeW env (resolveType env fuel)
            { st with processed := n :: st.processed } n with
        | none => rw [hf] at hfind; cases hfind
        | some r' =>
          cases r' with
          | mk schemaOpt st2 =>
            cases schemaOpt with
            | none => rfl
            | some schema => rfl

/-! ## Claim C8 -/

/-- Claim C8: cycle safety of `ResolveType`.  (1) The recursion terminates on
every input: the fuel `(mentionedNames env).length + 2` — a bound computed
from the environment, independent of the query — is always sufficient, i.e.
`resolveType` never runs out of fuel at that budget, even for struct types
whose fields reference the struct's own type directly or through a slice,
map, or pointer.  This holds because each nested re-entry on a new name
first marks it processed, strictly shrinking the set of mentioned-but-
unprocessed names.  (2) The re-entrant occurrence short-circuits: a
non-built-in name already marked processed immediately yields a `$ref` to
the type's own (cleaned) schema name, leaving the state untouched. -/
theorem claim_C8_cycle_safety (env : List GoTypeEntry) (st : ResolverState) (n : String) :
    (resolveType env ((mentionedNames env).length + 2) st n).isSome = true ∧
    (∀ f, memStr n st.processed = true → (resolveBuiltInType n).type = "" →
      resolveType env (f + 1) st n = some (refSchema (cleanTypeName n), st)) := by
  constructor
  · exact resolveType_adequate env _ st n
      (Nat.add_le_add_right
        (Nat.le_trans (countMissing_le_length _ _)
          (Nat.le_refl (mentionedNames env).length)) 2)
  · intro f hp hb
    simp only [resolveType]
    rw [if_neg (fun hne => hne hb), if_pos hp]

def c8env : List GoTypeEntry :=
  [⟨"Feed",
    .structDecl []
      [⟨"next", "", [], .starE (.ident "Feed")⟩,
       ⟨"items", "", [], .arrayTypeE (.starE (.ident "Feed"))⟩,
       ⟨"id", "", [], .ident "string"⟩],
    []⟩]

def c8st : ResolverState := { emptyResolverState with processed := ["Feed"] }

/-- Claim C8 witness: a struct `Feed` whose fields hold a `*Feed` and a
`[]*Feed` resolves within the computed fuel bound, and the re-entrant call on
the already-marked name returns the self-referencing `$ref`. -/
theorem claim_C8_witness :
    (resolveType c8env ((mentionedNames c8env).length + 2)
        emptyResolverState "Feed").isSome = true ∧
    resolveType c8env 5 c8st "Feed" = some (refSchema "Feed", c8st) :=
  ⟨(claim_C8_cycle_safety c8env emptyResolverState "Feed").1,
   (claim_C8_cycle_safety c8env c8st "Feed").2 4 (by decide) (by decide)⟩

/-! ## Claim C1 -/

/-- Whether `parseTypeDeclaration` can produce a schema from an entry's
declaration (every supported shape except the unsupported `otherDecl`). -/
def entryParseable (e : GoTypeEntry) : Bool :=
  match e.decl with
  | .otherDecl => false
  | _ => true

/-- The struct-name component `findAndParseType` takes out of a possibly
`pkg.Name`-qualified type name. -/
def structNameOf (typeName : String) : String :=
  if strContains typeName "." then ((goSplit typeName ".").drop 1).headD ""
  else typeName

/-- A type name the environment can actually resolve: some entry matches its
struct name and carries a parseable declaration. -/
def typeFindable (env : List GoTypeEntry) (typeName : String) : Bool :=
  env.any (fun e => decide (e.name = structNameOf typeName) && entryParseable e)

lemma findAndParseTypeW_eq (env : List GoTypeEntry) (resolve : ResolveFn)
    (st : ResolverState) (typeName : String) :
    findAndParseTypeW env resolve st typeName =
      findInEntriesW resolve st env (structNameOf typeName) := rfl

lemma findInEntriesW_findable {resolve : ResolveFn} :
    ∀ (entries : List GoTypeEntry) (st : ResolverState) (structName : String)
      (r : Option SchemaSpec × ResolverState),
      findInEntriesW resolve st entries structName = some r →
      entries.any (fun e => decide (e.name = structName) && entryParseable e) = true →
      r.1.isSome = true
  | [], _, _, _, _, hf => by simp at hf
  | e :: rest, st, structName, r, h, hf => by
    simp only [findInEntriesW] at h
    by_cases hn : e.name = structName
    · rw [if_pos hn] at h
      obtain ⟨name, decl, fileConsts⟩ := e
      cases decl with
      | structDecl doc fields =>
        simp only [parseEntryTypeW] at h
        cases hs : parseStructW resolve st doc fields with
        | none => rw [hs] at h; cases h
        | some r' =>
          obtain ⟨schema, st'⟩ := r'
          rw [hs] at h
          cases h
          rfl
      | namedIdent underlying =>
        simp only [parseEntryTypeW] at h
        by_cases he : hasSuffixStr name "Enum" = true
        · rw [if_pos he] at h; cases h; rfl
        · rw [if_neg he] at h; cases h; rfl
      | namedSelector pkg sel =>
        simp only [parseEntryTypeW] at h
        by_cases he : hasSuffixStr name "Enum" = true
        · rw [if_pos he] at h; cases h; rfl
        · rw [if_neg he] at h; cases h; rfl
      | otherDecl =>
        simp only [parseEntryTypeW] at h
        refine findInEntriesW_findable rest st structName r h ?_
        simpa [entryParseable] using hf
    · rw [if_neg hn] at h
      refine findInEntriesW_findable rest st structName r h ?_
      simpa [hn] using hf

/-- The claim C1 schema-table invariant, relative to a set `E` of names whose
resolution is still in flight: every processed name outside `E` that the
environment can resolve and that is not built-in already has a table entry
under its cleaned name. -/
def resolverInv (env : List GoTypeEntry) (E : List String) (st : ResolverState) : Prop :=
  ∀ Y, Y ∈ st.processed → Y ∉ E → typeFindable env Y = true →
    (resolveBuiltInType Y).type = "" →
    (lookupStr (cleanTypeName Y) st.schemas).isSome = true

/-- The property of the `resolve` callback the invariant-preservation lemmas
assume. -/
def invResolve (env : List GoTypeEntry) (resolve : ResolveFn) : Prop :=
  ∀ (E : List String) (st : ResolverState) (n : String) (r : SchemaSpec × ResolverState),
    resolve st n = some r → resolverInv env E st → resolverInv env E r.2

theorem parseFieldTypeW_inv {env : List GoTypeEntry} {resolve : ResolveFn}
    (hres : invResolve env resolve) :
    ∀ (t : GoExpr) (E : List String) (st : ResolverState) (r : SchemaSpec × ResolverState),
      parseFieldTypeW resolve st t = some r → resolverInv env E st → resolverInv env E r.2
  | .ident name, E, st, r, h, hinv => by
    simp only [parseFieldTypeW] at h
    by_cases hb : (resolveBuiltInType name).type ≠ ""
    · rw [if_pos hb] at h
      cases h
      exact hinv
    · rw [if_neg hb] at h
      exact hres E st name r h hinv
  | .selectorE (.ident pkg) sel, E, st, r, h, hinv => by
    simp only [parseFieldTypeW] at h
    by_cases hb : (resolveBuiltInType (pkg ++ "." ++ sel)).type ≠ ""
    · rw [if_pos hb] at h
      cases h
      exact hinv
    · rw [if_neg hb] at h
      exact hres E st _ r h hinv
  | .arrayTypeE elt, E, st, r, h, hinv => by
    simp only [parseFieldTypeW] at h
    cases helt : parseFieldTypeW resolve st elt with
    | none => rw [helt] at h; cases h
    | some r' =>
      rw [helt] at h
      cases h
      exact parseFieldTypeW_inv hres elt E st r' helt hinv
  | .mapTypeE key value, E, st, r, h, hinv => by
    simp only [parseFieldTypeW] at h
    cases hv : parseFieldTypeW resolve st value with
    | none => rw [hv] at h; cases h
    | some r' =>
      rw [hv] at h
      cases h
      exact parseFieldTypeW_inv hres value E st r' hv hinv
  | .starE x, E, st, r, h, hinv => by
    simp only [parseFieldTypeW] at h
    exact parseFieldTypeW_inv hres x E st r h hinv
  | .basicLit _ _, E, st, r, h, hinv => (Option.some.inj h) ▸ hinv
  | .callE _ _, E, st, r, h, hinv => (Option.some.inj h) ▸ hinv
  | .funcLit, E, st, r, h, hinv => (Option.some.inj h) ▸ hinv
  | .addrOf _, E, st, r, h, hinv => (Option.some.inj h) ▸ hinv
  | .compositeLit _, E, st, r, h, hinv => (Option.some.inj h) ▸ hinv
  | .otherE, E, st, r, h, hinv => (Option.some.inj h) ▸ hinv
  | .selectorE (.basicLit _ _) _, E, st, r, h, hinv => (Option.some.inj h) ▸ hinv
  | .selectorE (.callE _ _) _, E, st, r, h, hinv => (Option.some.inj h) ▸ hinv
  | .selectorE (.selectorE _ _) _, E, st, r, h, hinv => (Option.some.inj h) ▸ hinv
  | .selectorE .funcLit _, E, st, r, h, hinv => (Option.some.inj h) ▸ hinv
  | .selectorE (.addrOf _) _, E, st, r, h, hinv => (Option.some.inj h) ▸ hinv
  | .selectorE (.compositeLit _) _, E, st, r, h, hinv => (Option.some.inj h) ▸ hinv
  | .selectorE (.starE _) _, E, st, r, h, hinv => (Option.some.inj h) ▸ hinv
  | .selectorE (.arrayTypeE _) _, E, st, r, h, hinv => (Option.some.inj h) ▸ hinv
  | .selectorE (.mapTypeE _ _) _, E, st, r, h, hinv => (Option.some.inj h) ▸ hinv
  | .selectorE .otherE _, E, st, r, h, hinv => (Option.some.inj h) ▸ hinv

lemma parseFieldW_inv {env : List GoTypeEntry} {resolve : ResolveFn}
    (hres : invResolve env resolve) (E : List String) (st : ResolverState)
    (f : GoField) (schema : SchemaSpec) (r : SchemaSpec × ResolverState)
    (h : parseFieldW resolve st f schema = some r) (hinv : resolverInv env E st) :
    resolverInv env E r.2 := by
  simp only [parseFieldW] at h
  by_cases hskip : (if f.jsonTag ≠ "" then (goSplit f.jsonTag ",").headD "" else "") = "" ∨
      (if f.jsonTag ≠ "" then (goSplit f.jsonTag ",").headD "" else "") = "-"
  · rw [if_pos hskip] at h
    cases h
    exact hinv
  · rw [if_neg hskip] at h
    cases hft : parseFieldTypeW resolve st f.fieldType with
    | none => rw [hft] at h; cases h
    | some r' =>
      rw [hft] at h
      have hsub := parseFieldTypeW_inv hres f.fieldType E st r' hft hinv
      cases r' with
      | mk fs st' =>
        cases schema with
        | mk t fo d rf props req i e a =>
          simp only at h
          cases h
          exact hsub

lemma parseFieldsW_inv {env : List GoTypeEntry} {resolve : ResolveFn}
    (hres : invResolve env resolve) :
    ∀ (fields : List GoField) (E : List String) (st : ResolverState)
      (schema : SchemaSpec) (r : SchemaSpec × ResolverState),
      parseFieldsW resolve st fields schema = some r →
      resolverInv env E st → resolverInv env E r.2
  | [], E, st, schema, r, h, hinv => by
    cases h
    exact hinv
  | f :: rest, E, st, schema, r, h, hinv => by
    simp only [parseFieldsW] at h
    cases hf : parseFieldW resolve st f schema with
    | none => rw [hf] at h; cases h
    | some r' =>
      rw [hf] at h
      exact parseFieldsW_inv hres rest E r'.2 r'.1 r h
        (parseFieldW_inv hres E st f schema r' hf hinv)

lemma parseStructW_inv {env : List GoTypeEntry} {resolve : ResolveFn}
    (hres : invResolve env resolve) (E : List String) (st : ResolverState)
    (doc : List String) (fields : List GoField) (r : SchemaSpec × ResolverState)
    (h : parseStructW resolve st doc fields = some r) (hinv : resolverInv env E st) :
    resolverInv env E r.2 :=
  parseFieldsW_inv hres fields E st _ r h hinv

lemma parseEntryTypeW_inv {env : List GoTypeEntry} {resolve : ResolveFn}
    (hres : invResolve env resolve) (E : List String) (st : ResolverState)
    (e : GoTypeEntry) (r : Option SchemaSpec × ResolverState)
    (h : parseEntryTypeW resolve st e = some r) (hinv : resolverInv env E st) :
    resolverInv env E r.2 := by
  cases e with
  | mk name decl fileConsts =>
    cases decl with
    | structDecl doc fields =>
      simp only [parseEntryTypeW] at h
      cases hs : parseStructW resolve st doc fields with
      | none => rw [hs] at h; cases h
      | some r' =>
        rw [hs] at h
        cases h
        exact parseStructW_inv hres E st doc fields r' hs hinv
    | namedIdent underlying =>
      simp only [parseEntryTypeW] at h
      by_cases he : hasSuffixStr name "Enum" = true
      · rw [if_pos he] at h; cases h; exact hinv
      · rw [if_neg he] at h; cases h; exact hinv
    | namedSelector pkg sel =>
      simp only [parseEntryTypeW] at h
      by_cases he : hasSuffixStr name "Enum" = true
      · rw [if_pos he] at h; cases h; exact hinv
      · rw [if_neg he] at h; cases h; exact hinv
    | otherDecl =>
      cases h
      exact hinv

lemma findInEntriesW_inv {env : List GoTypeEntry} {resolve : ResolveFn}
    (hres : invResolve env resolve) :
    ∀ (entries : List GoTypeEntry) (E : List String) (st : ResolverState)
      (structName : String) (r : Option SchemaSpec × ResolverState),
      findInEntriesW resolve st entries structName = some r →
      resolverInv env E st → resolverInv env E r.2
  | [], E, st, structName, r, h, hinv => by
    cases h
    exact hinv
  | e :: rest, E, st, structName, r, h, hinv => by
    simp only [findInEntriesW] at h
    by_cases hn : e.name = structName
    · rw [if_pos hn] at h
      cases hp : parseEntryTypeW resolve st e with
      | none => rw [hp] at h; cases h
      | some r' =>
        rw [hp] at h
        cases r' with
        | mk schemaOpt st' =>
          cases schemaOpt with
          | none =>
            simp only at h
            exact findInEntriesW_inv hres rest E st structName r h hinv
          | some schema =>
            simp only at h
            cases h
            exact parseEntryTypeW_inv hres E st e _ hp hinv
    · rw [if_neg hn] at h
      exact findInEntriesW_inv hres rest E st structName r h hinv

lemma findAndParseTypeW_inv {env : List GoTypeEntry} {resolve : ResolveFn}
    (hres : invResolve env resolve) (E : List String) (st : ResolverState)
    (typeName : String) (r : Option SchemaSpec × ResolverState)
    (h : findAndParseTypeW env resolve st typeName = some r)
    (hinv : resolverInv env E st) : resolverInv env E r.2 :=
  findInEntriesW_inv hres env E st _ r h hinv

theorem resolveType_inv (env : List GoTypeEntry) :
    ∀ (fuel : Nat) (E : List String) (st : ResolverState) (n : String)
      (r : SchemaSpec × ResolverState),
      resolveType env fuel st n = some r → resolverInv env E st → resolverInv env E r.2
  | 0, E, st, n, r, h, _ => by cases h
  | fuel + 1, E, st, n, r, h, hinv => by
    have hres : invResolve env (resolveType env fuel) :=
      fun E' st' n' r' h' hinv' => resolveType_inv env fuel E' st' n' r' h' hinv'
    simp only [resolveType] at h
    by_cases hb : (resolveBuiltInType n).type ≠ ""
    · rw [if_pos hb] at h
      cases h
      exact hinv
    · rw [if_neg hb] at h
      by_cases hp : memStr n st.processed = true
      · rw [if_pos hp] at h
        cases h
        exact hinv
      · rw [if_neg hp] at h
        have hinv1 : resolverInv env (n :: E)
            { st with processed := n :: st.processed } := by
          intro Y hY hYE hfind hnb
          rcases List.mem_cons.mp hY with hYn | hYmem
          · exact absurd (hYn ▸ List.mem_cons_self n E) hYE
          · exact hinv Y hYmem (fun hmem => hYE (List.mem_cons_of_mem n hmem)) hfind hnb
        cases hf : findAndParseTypeW env (resolveType env fuel)
            { st with processed := n :: st.processed } n with
        | none => rw [hf] at h; cases h
        | some r' =>
          rw [hf] at h
          have hinv2 : resolverInv env (n :: E) r'.2 :=
            findAndParseTypeW_inv hres (n :: E) _ n r' hf hinv1
          cases r' with
          | mk schemaOpt st2 =>
            cases schemaOpt with
            | none =>
              simp only at h
              cases h
              intro Y hY hYE hfind hnb
              by_cases hYn : Y = n
              · subst hYn
                have hfound := findInEntriesW_findable env _ (structNameOf Y)
                  (none, st2) (findAndParseTypeW_eq env _ _ Y ▸ hf) hfind
                cases hfound
              · exact hinv2 Y hY
                  (fun hmem => by
                    rcases List.mem_cons.mp hmem with hc | hc
                    · exact hYn hc
                    · exact hYE hc)
                  hfind hnb
            | some schema =>
              simp only at h
              cases h
              intro Y hY hYE hfind hnb
              by_cases hYn : Y = n
              · subst hYn
                show (lookupStr (cleanTypeName Y)
                  (mapInsert st2.schemas (cleanTypeName Y) schema)).isSome = true
                rw [lookupStr_mapInsert_self]
                rfl
              · exact lookupStr_mapInsert_isSome _ _ _ _
                  (hinv2 Y hY
                    (fun hmem => by
                      rcases List.mem_cons.mp hmem with hc | hc
                      · exact hYn hc
                      · exact hYE hc)
                    hfind hnb)

lemma resolveType_processes (env : List GoTypeEntry) :
    ∀ (fuel : Nat) (st : ResolverState) (n : String) (r : SchemaSpec × ResolverState),
      resolveType env fuel st n = some r → (resolveBuiltInType n).type = "" →
      n ∈ r.2.processed
  | 0, st, n, r, h, _ => by cases h
  | fuel + 1, st, n, r, h, hnb => by
    simp only [resolveType] at h
    rw [if_neg (fun hne => hne hnb)] at h
    by_cases hp : memStr n st.processed = true
    · rw [if_pos hp] at h
      cases h
      exact (memStr_iff_mem n st.processed).mp hp
    · rw [if_neg hp] at h
      cases hf : findAndParseTypeW env (resolveType env fuel)
          { st with processed := n :: st.processed } n with
      | none => rw [hf] at h; cases h
      | some r' =>
        rw [hf] at h
        have hstep := findAndParseTypeW_stepRel (resolveType_stepRel env fuel) _ n r' hf
        have hmem : n ∈ r'.2.processed := hstep.1 n (List.mem_cons_self n st.processed)
        cases r' with
        | mk schemaOpt st2 =>
          cases schemaOpt with
          | none => simp only at h; cases h; exact hmem
          | some schema => simp only at h; cases h; exact hmem

lemma resolveLoop_stepRel (env : List GoTypeEntry) (fuel : Nat) :
    ∀ (names : List String) (st st' : ResolverState),
      resolveLoop env fuel st names = some st' → stepRel st st'
  | [], st, st', h => by cases h; exact stepRel_refl st
  | n :: rest, st, st', h => by
    simp only [resolveLoop] at h
    cases hr : resolveType env fuel st n with
    | none => rw [hr] at h; cases h
    | some r =>
      rw [hr] at h
      exact stepRel_trans (resolveType_stepRel env fuel st n r hr)
        (resolveLoop_stepRel env fuel rest r.2 st' h)

lemma resolveLoop_inv (env : List GoTypeEntry) (fuel : Nat) (E : List String) :
    ∀ (names : List String) (st st' : ResolverState),
      resolveLoop env fuel st names = some st' →
      resolverInv env E st → resolverInv env E st'
  | [], st, st', h, hinv => by cases h; exact hinv
  | n :: rest, st, st', h, hinv => by
    simp only [resolveLoop] at h
    cases hr : resolveType env fuel st n with
    | none => rw [hr] at h; cases h
    | some r =>
      rw [hr] at h
      exact resolveLoop_inv env fuel E rest r.2 st' h
        (resolveType_inv env fuel E st n r hr hinv)

lemma resolveLoop_processes (env : List GoTypeEntry) (fuel : Nat) :
    ∀ (names : List String) (st st' : ResolverState) (X : String),
      resolveLoop env fuel st names = some st' → X ∈ names →
      (resolveBuiltInType X).type = "" → X ∈ st'.processed
  | [], _, _, X, _, hX, _ => by cases hX
  | n :: rest, st, st', X, h, hX, hnb => by
    simp only [resolveLoop] at h
    cases hr : resolveType env fuel st n with
    | none => rw [hr] at h; cases h
    | some r =>
      rw [hr] at h
      rcases List.mem_cons.mp hX with hXn | hXr
      · subst hXn
        exact (resolveLoop_stepRel env fuel rest r.2 st' h).1 X
          (resolveType_processes env fuel st X r hr hnb)
      · exact resolveLoop_processes env fuel rest r.2 st' X h hXr hnb

lemma lookupStr_foldl_insert_isSome_init {α : Type} :
    ∀ (l : List (String × α)) (init : List (String × α)) (k : String),
      (lookupStr k init).isSome = true →
      (lookupStr k (l.foldl (fun m kv => mapInsert m kv.1 kv.2) init)).isSome = true
  | [], _, _, h => h
  | kv :: rest, init, k, h => by
    rw [List.foldl_cons]
    exact lookupStr_foldl_insert_isSome_init rest _ k
      (lookupStr_mapInsert_isSome _ _ _ _ h)

lemma lookupStr_foldl_insert_isSome {α : Type} :
    ∀ (l : List (String × α)) (init : List (String × α)) (k : String),
      (lookupStr k l).isSome = true →
      (lookupStr k (l.foldl (fun m kv => mapInsert m kv.1 kv.2) init)).isSome = true
  | [], _, _, h => by cases h
  | kv :: rest, init, k, h => by
    rw [List.foldl_cons]
    by_cases hk : kv.1 = k
    · refine lookupStr_foldl_insert_isSome_init rest _ k ?_
      obtain ⟨k0, v0⟩ := kv
      cases hk
      rw [lookupStr_mapInsert_self]
      rfl
    · refine lookupStr_foldl_insert_isSome rest _ k ?_
      obtain ⟨k0, v0⟩ := kv
      simp only [lookupStr, if_neg hk] at h
      exact h

def c1endpoint : EndpointSpec :=
  { path := "/things", method := "GET", handler := "ThingsController",
    msName := "svc", middleware := [], summary := "", description := "",
    tags := [], parameters := [], requestBody := none,
    responses := [("200",
      { description := "OK", contentType := "application/json",
        schema := refSchema "MissingType" })],
    security := [] }

def c1doc : OpenAPISpec := addEndpoint (newOpenAPISpec "t" "1.0" "" []) c1endpoint

def c1final : Option OpenAPISpec :=
  (resolveAllSchemas [] 4 emptyResolverState c1doc).map
    (fun d => finalizeSecuritySchemes d "https://auth.example/authorize"
      "https://auth.example/token")

/-- Claim C1, counterexample: an endpoint response referencing a type the
environment does not declare assembles to a document whose paths still
mention `MissingType` in a `$ref`, yet `components.schemas` has no entry for
it — the reference dangles after `resolveAllSchemas` and finalization
complete; `ResolveType`'s generic-object fallback is discarded by the loop
and never recorded. -/
theorem claim_C1_counterexample :
    (c1final.map (fun d => memStr "MissingType" (collectTypeReferences d))) = some true ∧
    (c1final.map (fun d => lookupStr "MissingType" d.components.schemas)) = some none :=
  ⟨rfl, rfl⟩

/-- Claim C1, amended: the `$ref`-closure invariant holds only for resolvable
references.  After `resolveAllSchemas` completes, every type name referenced
under `paths` that the environment declares with a parseable declaration
(`typeFindable`) and that is not a built-in has a matching entry keyed by its
cleaned name in `components.schemas`.  An unresolvable reference is NOT
degraded in the document: `ResolveType` hands a generic object schema back to
the loop, but the loop discards it and records nothing, so the document's
`$ref` dangles (see the counterexample). -/
theorem claim_C1_ref_closure (env : List GoTypeEntry) (fuel : Nat)
    (doc doc' : OpenAPISpec) (X : String)
    (h : resolveAllSchemas env fuel emptyResolverState doc = some doc')
    (hX : X ∈ collectTypeReferences doc)
    (hfind : typeFindable env X = true)
    (hnb : (resolveBuiltInType X).type = "") :
    (lookupStr (cleanTypeName X) doc'.components.schemas).isSome = true := by
  simp only [resolveAllSchemas] at h
  cases hl : resolveLoop env fuel emptyResolverState (collectTypeReferences doc) with
  | none => rw [hl] at h; cases h
  | some st' =>
    rw [hl] at h
    cases h
    have hinv0 : resolverInv env [] emptyResolverState := by
      intro Y hY _ _ _
      simp [emptyResolverState] at hY
    have hinv' := resolveLoop_inv env fuel [] _ _ _ hl hinv0
    have hproc := resolveLoop_processes env fuel _ _ _ X hl hX hnb
    have hlook := hinv' X hproc (List.not_mem_nil X) hfind hnb
    exact lookupStr_foldl_insert_isSome _ _ _ hlook

def c1env : List GoTypeEntry :=
  [⟨"Widget", .structDecl [] [⟨"id", "", [], .ident "string"⟩], []⟩]

def c1endpoint2 : EndpointSpec :=
  { path := "/widgets", method := "GET", handler := "WidgetsController",
    msName := "svc", middleware := [], summary := "", description := "",
    tags := [], parameters := [], requestBody := none,
    responses := [("200",
      { description := "OK", contentType := "application/json",
        schema := refSchema "Widget" })],
    security := [] }

def c1doc2 : OpenAPISpec := addEndpoint (newOpenAPISpec "t" "1.0" "" []) c1endpoint2

def c1resolved : OpenAPISpec :=
  (resolveAllSchemas c1env 4 emptyResolverState c1doc2).getD (newOpenAPISpec "" "" "" [])

/-- Claim C1 witness: a document referencing the declared struct `Widget`
resolves, and the resolved document's `components.schemas` carries the
`Widget` entry. -/
theorem claim_C1_witness :
    resolveAllSchemas c1env 4 emptyResolverState c1doc2 = some c1resolved ∧
    "Widget" ∈ collectTypeReferences c1doc2 ∧
    typeFindable c1env "Widget" = true ∧
    (resolveBuiltInType "Widget").type = "" ∧
    (lookupStr (cleanTypeName "Widget") c1resolved.components.schemas).isSome = true :=
  ⟨rfl, by decide, rfl, rfl,
   claim_C1_ref_closure c1env 4 c1doc2 c1resolved "Widget" rfl (by decide) rfl rfl⟩
